import Mathlib

/-!
Verification of the command-resolution pipeline of the saydo2 repository.

The Python sources are embedded shallowly:

* text is modelled as `List Char` (`Str`);
* `str.lower` is modelled by `pyLower`, covering the ASCII and Cyrillic
  repertoire the program manipulates (other code points are fixed);
* Python whitespace (`str.strip`, `str.split`, the regex class `\s`) is
  modelled by `pyIsSpace`;
* Python `dict` is modelled observationally by an association list where
  `dset` prepends and `dget` takes the first hit, so that later writes to
  the same key win, exactly as in a `dict`;
* the regular expressions of `agent.py` and `parsers/telegram_parser.py`
  are transcribed atom by atom into a small pattern language (`Atom`) whose
  matcher `matchSeq` implements the backtracking search of `re`:
  leftmost start position, leftmost alternative first, greedy quantifiers
  try the longest width first, lazy quantifiers the shortest; `.` does not
  match a newline, `$` matches at the end or before a final newline;
* the HTTP transport of `hs_call` and the automation daemon are abstracted
  to a transport outcome and a boolean response function; file input,
  speech recognition and the OCR engine are abstracted away, the pure
  matching logic over extracted text lines is kept.
-/

/-- Text is a list of characters. -/
abbrev Str := List Char

/-- Python whitespace: the characters matched by `\s` on `str` and stripped
by `str.strip()` (ASCII whitespace, the C1 separators, and the Unicode
space code points). -/
def pyIsSpace (c : Char) : Bool :=
  c.toNat == 32 || (9 ≤ c.toNat && c.toNat ≤ 13) || (28 ≤ c.toNat && c.toNat ≤ 31) ||
  c.toNat == 0x85 || c.toNat == 0xa0 || c.toNat == 0x1680 ||
  (0x2000 ≤ c.toNat && c.toNat ≤ 0x200a) || c.toNat == 0x2028 || c.toNat == 0x2029 ||
  c.toNat == 0x202f || c.toNat == 0x205f || c.toNat == 0x3000

/-- Python `str.lower()` restricted to the repertoire of the program:
ASCII letters, the Cyrillic range А..Я and the letter Ё.  Every other
character is left unchanged. -/
def pyLower (c : Char) : Char :=
  if 65 ≤ c.toNat ∧ c.toNat ≤ 90 then Char.ofNat (c.toNat + 32)
  else if 0x410 ≤ c.toNat ∧ c.toNat ≤ 0x42F then Char.ofNat (c.toNat + 32)
  else if c.toNat = 0x401 then Char.ofNat 0x451
  else c

/-- Lowercasing of a whole string, `s.lower()`. -/
def lowerStr (s : Str) : Str := s.map pyLower

/-- The replacement `s.replace("ё", "е")` used by every normalizer of the
repository. -/
def replaceYo (s : Str) : Str := s.map (fun c => if c == 'ё' then 'е' else c)

/-- Python `s.strip()`: drop whitespace from both ends. -/
def pyStrip (s : Str) : Str :=
  ((s.dropWhile pyIsSpace).reverse.dropWhile pyIsSpace).reverse

/-- The substitution `re.sub(r"\s+", " ", s)`: every maximal run of
whitespace becomes a single space. -/
def collapseWs : Str → Str
  | [] => []
  | [c] => if pyIsSpace c then [' '] else [c]
  | c :: d :: rest =>
    if pyIsSpace c then
      if pyIsSpace d then collapseWs (d :: rest)
      else ' ' :: d :: collapseWs rest
    else c :: collapseWs (d :: rest)

/-- The normalizer `norm` defined identically in `src/agent.py` and
`src/utils/chat_resolver.py`: strip, lowercase, fold ё to е, collapse
whitespace runs to one space. -/
def norm (s : Str) : Str := collapseWs (replaceYo (lowerStr (pyStrip s)))

/-- The normalizer `normalize_text` of `src/ocr_find_chat.py`; its body is
the same pipeline as `norm`. -/
def normalize_text (s : Str) : Str := collapseWs (replaceYo (lowerStr (pyStrip s)))

/-- The helper `clean_one_line` of `src/agent.py`: carriage returns and
newlines become spaces, whitespace runs are collapsed, then the ends are
stripped. -/
def clean_one_line (text : Str) : Str :=
  pyStrip (collapseWs (text.map (fun c => if c == '\r' || c == '\n' then ' ' else c)))

/-- Python `s.split()` (no separator): split on whitespace runs, dropping
empty tokens.  `acc` holds the characters of the current token, reversed. -/
def splitWsAux : Str → Str → List Str
  | [], acc => if acc.isEmpty then [] else [acc.reverse]
  | c :: rest, acc =>
    if pyIsSpace c then
      if acc.isEmpty then splitWsAux rest [] else acc.reverse :: splitWsAux rest []
    else splitWsAux rest (c :: acc)

/-- Python `s.split()` with no argument. -/
def pySplitWs (s : Str) : List Str := splitWsAux s []

/-- Python `" ".join(words)`. -/
def joinSpace : List Str → Str
  | [] => []
  | [w] => w
  | w :: ws => w ++ ' ' :: joinSpace ws

/-- Does `hay` start with `pat`?  (Helper for the substring test.) -/
def leadsWith : Str → Str → Bool
  | [], _ => true
  | _ :: _, [] => false
  | a :: as, b :: bs => a == b && leadsWith as bs

/-- Python `pat in hay` on strings: substring containment. -/
def containsSub (hay pat : Str) : Bool :=
  leadsWith pat hay ||
    match hay with
    | [] => false
    | _ :: rest => containsSub rest pat

/-- Observational model of a Python `dict`: an association list where the
most recent binding of a key comes first. -/
abbrev PyDict (K V : Type) := List (K × V)

/-- `d[k] = v`: a later write shadows earlier bindings of the same key. -/
def dset {K V : Type} (m : PyDict K V) (k : K) (v : V) : PyDict K V := (k, v) :: m

/-- `d.get(k)`: the most recent binding of `k`, if any. -/
def dget {K V : Type} [BEq K] (m : PyDict K V) (k : K) : Option V :=
  match m.find? (fun p => p.1 == k) with
  | some p => some p.2
  | none => none

/-- One entry of `tracked_chats.json`.  `result_index = none` models the
absence of the `"result_index"` key; `result_index = some v` models a
present key whose JSON value is `v` (`v = none` standing for JSON null). -/
structure TrackedItem where
  canonical : Str
  aliases : List Str
  result_index : Option (Option Int)
deriving DecidableEq

namespace ChatResolver

/-- The body of the `for item in tracked` loop of `build_alias_map` in
`src/utils/chat_resolver.py`: for an entry with a non-empty canonical,
register the normalized canonical, the (present) `result_index`, and every
normalized alias. -/
def buildStep (maps : PyDict Str Str × PyDict Str (Option Int)) (item : TrackedItem) :
    PyDict Str Str × PyDict Str (Option Int) :=
  if item.canonical.isEmpty then maps
  else
    let am := dset maps.1 (norm item.canonical) item.canonical
    let rim := match item.result_index with
      | some v => dset maps.2 item.canonical v
      | none => maps.2
    (item.aliases.foldl (fun m a => dset m (norm a) item.canonical) am, rim)

/-- The function `build_alias_map` of `src/utils/chat_resolver.py`. -/
def build_alias_map (tracked : List TrackedItem) :
    PyDict Str Str × PyDict Str (Option Int) :=
  tracked.foldl buildStep ([], [])

/-- The function `resolve_chat` of `src/utils/chat_resolver.py`. -/
def resolve_chat (user_target : Str) (alias_map : PyDict Str Str) : Option Str :=
  dget alias_map (norm user_target)

end ChatResolver

namespace Agent

/-- The function `build_alias_map` of `src/agent.py`; unlike the
`chat_resolver.py` variant it skips aliases whose normal form is empty. -/
def build_alias_map (tracked : List TrackedItem) :
    PyDict Str Str × PyDict Str (Option Int) :=
  tracked.foldl (fun maps item =>
    if item.canonical.isEmpty then maps
    else
      let am := dset maps.1 (norm item.canonical) item.canonical
      let rim := match item.result_index with
        | some v => dset maps.2 item.canonical v
        | none => maps.2
      (item.aliases.foldl
        (fun m a => if (norm a).isEmpty then m else dset m (norm a) item.canonical) am,
       rim))
    ([], [])

/-- The function `resolve_chat` of `src/agent.py`; it rejects an empty
normalized key before the lookup. -/
def resolve_chat (user_target : Str) (alias_map : PyDict Str Str) : Option Str :=
  let key := norm user_target
  if key.isEmpty then none else dget alias_map key

end Agent

/-!
The pattern language.  Each constructor is one atom of the regular
expressions appearing in the sources; a pattern is a list of atoms matched
in sequence.  Alternations of the sources that nest a group inside an
alternative are flattened into `strAlt` with the alternatives enumerated in
the priority order of the backtracking engine, e.g.
`(телегра(м|мма?)|telegram)` becomes the alternatives
`телеграм, телеграмма, телеграмм, telegram`.
-/

/-- One atom of a transcribed regular expression. -/
inductive Atom where
  /-- A literal string. -/
  | lit (w : Str)
  /-- An alternation `(w₁|w₂|...)` of literal strings, first listed first. -/
  | strAlt (ws : List Str)
  /-- A character class such as `[«"]`. -/
  | cls (cs : List Char)
  /-- An optional character, `c?` (greedy). -/
  | optChar (c : Char)
  /-- An optional word followed by whitespace, `(?:w\s+)?` (greedy). -/
  | optWordWs (w : Str)
  /-- `\s+` (greedy). -/
  | ws1
  /-- `\s*` (greedy). -/
  | ws0
  /-- A lazy group `(?P<g>.+?)`; `.` does not match a newline. -/
  | grpLazy (g : Nat)
  /-- A greedy group `(?P<g>.+)`; `.` does not match a newline. -/
  | grpGreedy (g : Nat)
  /-- The anchor `$`: at the end, or before a final newline. -/
  | eos

/-- Captured groups of a match. -/
abbrev Caps := List (Nat × Str)

/-- Character comparison, case-insensitively when `ci` is set (the searches
of the parsers all use `re.IGNORECASE`; some of the post-processing
substitutions do not). -/
def charEqCI (ci : Bool) (a b : Char) : Bool :=
  if ci then pyLower a == pyLower b else a == b

/-- Match a literal at the head of the input, returning the rest. -/
def stripLit (ci : Bool) : Str → Str → Option Str
  | [], s => some s
  | _ :: _, [] => none
  | p :: ps, c :: s => if charEqCI ci p c then stripLit ci ps s else none

/-- Is the character allowed under `.` (anything but a newline)? -/
def notNl (c : Char) : Bool := c != '\n'

/-- The backtracking matcher: match a pattern at the beginning of `s`,
returning the captured groups and the remaining input of the first match in
backtracking order.  Greedy atoms offer the longest width first, lazy
groups the shortest, alternations their alternatives in order; on failure
of the continuation the next offer is tried, exactly as in `re`. -/
def matchSeq (ci : Bool) : List Atom → Str → Option (Caps × Str)
  | [], s => some ([], s)
  | .lit w :: rest, s =>
    match stripLit ci w s with
    | some s' => matchSeq ci rest s'
    | none => none
  | .strAlt ws :: rest, s =>
    ws.findSome? (fun w =>
      match stripLit ci w s with
      | some s' => matchSeq ci rest s'
      | none => none)
  | .cls cs :: rest, s =>
    match s with
    | [] => none
    | c :: s' => if cs.any (fun p => charEqCI ci p c) then matchSeq ci rest s' else none
  | .optChar p :: rest, s =>
    match s with
    | [] => matchSeq ci rest []
    | c :: s' =>
      if charEqCI ci p c then
        match matchSeq ci rest s' with
        | some r => some r
        | none => matchSeq ci rest s
      else matchSeq ci rest s
  | .optWordWs w :: rest, s =>
    match
      (match stripLit ci w s with
       | some s' =>
         let k := (s'.takeWhile pyIsSpace).length
         (List.range k).findSome? (fun i => matchSeq ci rest (s'.drop (k - i)))
       | none => none)
    with
    | some r => some r
    | none => matchSeq ci rest s
  | .ws1 :: rest, s =>
    let k := (s.takeWhile pyIsSpace).length
    (List.range k).findSome? (fun i => matchSeq ci rest (s.drop (k - i)))
  | .ws0 :: rest, s =>
    let k := (s.takeWhile pyIsSpace).length
    (List.range (k + 1)).findSome? (fun i => matchSeq ci rest (s.drop (k - i)))
  | .grpLazy g :: rest, s =>
    let r := (s.takeWhile notNl).length
    (List.range r).findSome? (fun i =>
      match matchSeq ci rest (s.drop (i + 1)) with
      | some (caps, rem) => some ((g, s.take (i + 1)) :: caps, rem)
      | none => none)
  | .grpGreedy g :: rest, s =>
    let r := (s.takeWhile notNl).length
    (List.range r).findSome? (fun i =>
      match matchSeq ci rest (s.drop (r - i)) with
      | some (caps, rem) => some ((g, s.take (r - i)) :: caps, rem)
      | none => none)
  | .eos :: rest, s => if s.isEmpty || s == ['\n'] then matchSeq ci rest s else none

/-- `re.search`: try the pattern at every start position, leftmost first,
and return the captures of the first match. -/
def searchAux (ci : Bool) (pats : List Atom) : Str → Option Caps
  | [] =>
    match matchSeq ci pats [] with
    | some (caps, _) => some caps
    | none => none
  | c :: s' =>
    match matchSeq ci pats (c :: s') with
    | some (caps, _) => some caps
    | none => searchAux ci pats s'

/-- `re.search` used for a substitution: the text before the leftmost match
together with the text after the match. -/
def searchSplit (ci : Bool) (pats : List Atom) : Str → Option (Str × Str)
  | [] =>
    match matchSeq ci pats [] with
    | some (_, rem) => some ([], rem)
    | none => none
  | c :: s' =>
    match matchSeq ci pats (c :: s') with
    | some (_, rem) => some ([], rem)
    | none =>
      match searchSplit ci pats s' with
      | some (pre, rem) => some (c :: pre, rem)
      | none => none

/-- `re.sub(pat, "", s)` for the end-anchored tail patterns of the sources
(such patterns can match at most once, so one deletion suffices). -/
def reSubEmpty (ci : Bool) (pats : List Atom) (s : Str) : Str :=
  match searchSplit ci pats s with
  | some (pre, rem) => pre ++ rem
  | none => s

/-- `re.sub("^...", "", s)` for the start-anchored patterns of the sources:
a match can only occur at position 0. -/
def reSubAnchored (ci : Bool) (pats : List Atom) (s : Str) : Str :=
  match matchSeq ci pats s with
  | some (_, rem) => rem
  | none => s

/-- The value of a captured group. -/
def capGet (caps : Caps) (g : Nat) : Str :=
  match caps.find? (fun p => p.1 == g) with
  | some p => p.2
  | none => []

/-- First result of an ordered rule cascade. -/
def firstSome {α : Type} : List (Option α) → Option α
  | [] => none
  | some a :: _ => some a
  | none :: rest => firstSome rest

/-- Result of `agent.parse_command`: intent, target, optional message.
The Python `(None, None, None)` return is modelled as `none`. -/
abbrev ParseRes := Str × Str × Option Str

/-- The alternation `(телегра(м|мма?)|telegram)`, flattened in backtracking
priority order. -/
def tgAlts : List Str :=
  ["телеграм".data, "телеграмма".data, "телеграмм".data, "telegram".data]

/-- The alternation `(а|а обмена|а обмена|а)` of the buffer rules of
`agent.py` (the duplicates of the source are kept). -/
def bufAlts : List Str := ["а".data, "а обмена".data, "а обмена".data, "а".data]

/-- The alternation `(ть|ться|ть)` of rule 5 of `agent.py`. -/
def pisAlts : List Str := ["ть".data, "ться".data, "ть".data]

/-- The substitution pattern `^в\s+` (case-sensitive in the source). -/
def patLeadV : List Atom := [.lit "в".data, .ws1]

/-- The substitution pattern `^(в|к|ко)\s+` (case-sensitive in the source). -/
def patLeadPrep : List Atom := [.strAlt ["в".data, "к".data, "ко".data], .ws1]

/-- The substitution pattern `\s+в\s+(телегра(м|мма?)|telegram)\s*$`. -/
def patTrailTgV : List Atom :=
  [.ws1, .lit "в".data, .ws1, .strAlt tgAlts, .ws0, .eos]

/-- The substitution pattern `\s+(?:в\s+)?(?:телегра(м|мма?)|telegram)\s*$`. -/
def patTrailTgOpt : List Atom :=
  [.ws1, .optWordWs "в".data, .strAlt tgAlts, .ws0, .eos]

/-- The substitution pattern `^\s*(?:телегра(м|мма?)|telegram)\s+`. -/
def patLeadTg : List Atom := [.ws0, .strAlt tgAlts, .ws1]

namespace Agent

/-- Rule 1 of `parse_command`:
`открой\s+чат\s+(?P<target>.+?)\s+и\s+напиши\s+[«"](?P<msg>.+?)[»"]\s*$`. -/
def pat1 : List Atom :=
  [.lit "открой".data, .ws1, .lit "чат".data, .ws1, .grpLazy 0, .ws1, .lit "и".data, .ws1,
   .lit "напиши".data, .ws1, .cls ['«', '"'], .grpLazy 1, .cls ['»', '"'], .ws0, .eos]

/-- Rule 1: return `open_and_type` with both captures stripped. -/
def rule1 (t : Str) : Option ParseRes :=
  match searchAux true pat1 t with
  | some caps =>
    some ("open_and_type".data, pyStrip (capGet caps 0), some (pyStrip (capGet caps 1)))
  | none => none

/-- Rule 2: `напиши\s+в\s+(?P<target>.+?)\s*:\s*(?P<msg>.+)\s*$`. -/
def pat2 : List Atom :=
  [.lit "напиши".data, .ws1, .lit "в".data, .ws1, .grpLazy 0, .ws0, .lit ":".data, .ws0,
   .grpGreedy 1, .ws0, .eos]

/-- Rule 2: `type_to_chat` with both captures stripped. -/
def rule2 (t : Str) : Option ParseRes :=
  match searchAux true pat2 t with
  | some caps =>
    some ("type_to_chat".data, pyStrip (capGet caps 0), some (pyStrip (capGet caps 1)))
  | none => none

/-- Rule 3: `напиши\s+в\s+чат\s+(?P<target>.+?)\s*:\s*(?P<msg>.+)\s*$`. -/
def pat3 : List Atom :=
  [.lit "напиши".data, .ws1, .lit "в".data, .ws1, .lit "чат".data, .ws1, .grpLazy 0, .ws0,
   .lit ":".data, .ws0, .grpGreedy 1, .ws0, .eos]

/-- Rule 3: `type_to_chat` with both captures stripped. -/
def rule3 (t : Str) : Option ParseRes :=
  match searchAux true pat3 t with
  | some caps =>
    some ("type_to_chat".data, pyStrip (capGet caps 0), some (pyStrip (capGet caps 1)))
  | none => none

/-- Rule 4: `напиши\s+в\s+(?P<target>.+?)\s+что\s+(?P<msg>.+)\s*$`. -/
def pat4 : List Atom :=
  [.lit "напиши".data, .ws1, .lit "в".data, .ws1, .grpLazy 0, .ws1, .lit "что".data, .ws1,
   .grpGreedy 1, .ws0, .eos]

/-- Rule 4: `type_to_chat` with both captures stripped. -/
def rule4 (t : Str) : Option ParseRes :=
  match searchAux true pat4 t with
  | some caps =>
    some ("type_to_chat".data, pyStrip (capGet caps 0), some (pyStrip (capGet caps 1)))
  | none => none

/-- Rule 4a: `напиши\s+(?P<target>.+?)\s+сообщение\s+(?P<msg>.+)\s*$`. -/
def pat4a : List Atom :=
  [.lit "напиши".data, .ws1, .grpLazy 0, .ws1, .lit "сообщение".data, .ws1,
   .grpGreedy 1, .ws0, .eos]

/-- Rule 4a: strip a leading preposition `в`, `к` or `ко` off the target. -/
def rule4a (t : Str) : Option ParseRes :=
  match searchAux true pat4a t with
  | some caps =>
    some ("type_to_chat".data,
      reSubAnchored false patLeadPrep (pyStrip (capGet caps 0)),
      some (pyStrip (capGet caps 1)))
  | none => none

/-- Rule 5: `написа(ть|ться|ть)\s+в\s+чат\s+(?P<target>.+?)\s*,?\s+что\s+(?P<msg>.+)\s*$`. -/
def pat5 : List Atom :=
  [.lit "написа".data, .strAlt pisAlts, .ws1, .lit "в".data, .ws1, .lit "чат".data, .ws1,
   .grpLazy 0, .ws0, .optChar ',', .ws1, .lit "что".data, .ws1, .grpGreedy 1, .ws0, .eos]

/-- Rule 5: `type_to_chat` with both captures stripped. -/
def rule5 (t : Str) : Option ParseRes :=
  match searchAux true pat5 t with
  | some caps =>
    some ("type_to_chat".data, pyStrip (capGet caps 0), some (pyStrip (capGet caps 1)))
  | none => none

/-- Rule 5a:
`отправ(ь|и)\s+в\s+(телегра(м|мма?)|telegram)\s+в\s+(?P<target>.+?)\s+сообщение\s+(?P<msg>.+)\s*$`. -/
def pat5a : List Atom :=
  [.lit "отправ".data, .cls ['ь', 'и'], .ws1, .lit "в".data, .ws1, .strAlt tgAlts, .ws1,
   .lit "в".data, .ws1, .grpLazy 0, .ws1, .lit "сообщение".data, .ws1, .grpGreedy 1,
   .ws0, .eos]

/-- Rule 5a: `type_to_chat` with both captures stripped. -/
def rule5a (t : Str) : Option ParseRes :=
  match searchAux true pat5a t with
  | some caps =>
    some ("type_to_chat".data, pyStrip (capGet caps 0), some (pyStrip (capGet caps 1)))
  | none => none

/-- Rule 5b: as rule 5a with `чат` before the target. -/
def pat5b : List Atom :=
  [.lit "отправ".data, .cls ['ь', 'и'], .ws1, .lit "в".data, .ws1, .strAlt tgAlts, .ws1,
   .lit "в".data, .ws1, .lit "чат".data, .ws1, .grpLazy 0, .ws1, .lit "сообщение".data,
   .ws1, .grpGreedy 1, .ws0, .eos]

/-- Rule 5b: `type_to_chat` with both captures stripped. -/
def rule5b (t : Str) : Option ParseRes :=
  match searchAux true pat5b t with
  | some caps =>
    some ("type_to_chat".data, pyStrip (capGet caps 0), some (pyStrip (capGet caps 1)))
  | none => none

/-- Rule 5c:
`отправ(ь|и)\s+в\s+(телегра(м|мма?)|telegram)\s+(?P<target>.+?)\s+сообщение\s+(?P<msg>.+)\s*$`. -/
def pat5c : List Atom :=
  [.lit "отправ".data, .cls ['ь', 'и'], .ws1, .lit "в".data, .ws1, .strAlt tgAlts, .ws1,
   .grpLazy 0, .ws1, .lit "сообщение".data, .ws1, .grpGreedy 1, .ws0, .eos]

/-- Rule 5c: strip a leading `в` off the target. -/
def rule5c (t : Str) : Option ParseRes :=
  match searchAux true pat5c t with
  | some caps =>
    some ("type_to_chat".data,
      reSubAnchored false patLeadV (pyStrip (capGet caps 0)),
      some (pyStrip (capGet caps 1)))
  | none => none

/-- Rule 5c1 (line 198): `отправ(ь|и)\s+(?P<target>.+?)\s+сообщение\s+(?P<msg>.+)\s*$`. -/
def pat5c1 : List Atom :=
  [.lit "отправ".data, .cls ['ь', 'и'], .ws1, .grpLazy 0, .ws1, .lit "сообщение".data,
   .ws1, .grpGreedy 1, .ws0, .eos]

/-- Rule 5c1 (line 198): strip a leading `в`, a trailing `в телеграм` and a
leading `телеграм` off the target, then strip it again. -/
def rule5c1 (t : Str) : Option ParseRes :=
  match searchAux true pat5c1 t with
  | some caps =>
    let t1 := reSubAnchored false patLeadV (pyStrip (capGet caps 0))
    let t2 := reSubEmpty true patTrailTgV t1
    let t3 := reSubAnchored true patLeadTg t2
    some ("type_to_chat".data, pyStrip t3, some (pyStrip (capGet caps 1)))
  | none => none

/-- Rule 5c2 (line 213):
`отправ(ь|и)\s+(?P<target>.+?)\s+в\s+(телегра(м|мма?)|telegram)\s+сообщение\s+(?P<msg>.+)\s*$`. -/
def pat5c2 : List Atom :=
  [.lit "отправ".data, .cls ['ь', 'и'], .ws1, .grpLazy 0, .ws1, .lit "в".data, .ws1,
   .strAlt tgAlts, .ws1, .lit "сообщение".data, .ws1, .grpGreedy 1, .ws0, .eos]

/-- Rule 5c2 (line 213): `type_to_chat` with both captures stripped. -/
def rule5c2 (t : Str) : Option ParseRes :=
  match searchAux true pat5c2 t with
  | some caps =>
    some ("type_to_chat".data, pyStrip (capGet caps 0), some (pyStrip (capGet caps 1)))
  | none => none

/-- Rule 5c1, second copy (line 223): same pattern as line 198, different
post-processing: optional `в` in the trailing telegram strip, whitespace
collapssing, and a non-empty target guard. -/
def rule5c1b (t : Str) : Option ParseRes :=
  match searchAux true pat5c1 t with
  | some caps =>
    let t1 := reSubAnchored false patLeadV (pyStrip (capGet caps 0))
    let t2 := reSubEmpty true patTrailTgOpt t1
    let t3 := reSubAnchored true patLeadTg t2
    let t4 := pyStrip (collapseWs t3)
    if t4.isEmpty then none
    else some ("type_to_chat".data, t4, some (pyStrip (capGet caps 1)))
  | none => none

/-- The word-count fallback (line 242):
`отправ(ь|и)\s+сообщение\s+(?P<rest>.+)\s*$`. -/
def patWc : List Atom :=
  [.lit "отправ".data, .cls ['ь', 'и'], .ws1, .lit "сообщение".data, .ws1,
   .grpGreedy 2, .ws0, .eos]

/-- The word-count fallback (line 242): split the remainder into a 1-2 word
name and a message, post-process the name, and require both to be
non-empty. -/
def rule5c2wc (t : Str) : Option ParseRes :=
  match searchAux true patWc t with
  | some caps =>
    let words := pySplitWs (pyStrip (capGet caps 2))
    let wt :=
      if words.length ≥ 3 then (joinSpace (words.take 2), joinSpace (words.drop 2))
      else if words.length ≥ 2 then (words.headD [], joinSpace (words.drop 1))
      else (words.headD [], ([] : Str))
    let t1 := reSubAnchored false patLeadV wt.1
    let t2 := reSubEmpty true patTrailTgOpt t1
    let t3 := reSubAnchored true patLeadTg t2
    let t4 := pyStrip (collapseWs t3)
    if t4.isEmpty || wt.2.isEmpty then none
    else some ("type_to_chat".data, t4, some (pyStrip wt.2))
  | none => none

/-- Rule 5c3 (line 280): same pattern as rule 5c2 of line 213, with
whitespace collapsing and a non-empty target guard. -/
def rule5c3 (t : Str) : Option ParseRes :=
  match searchAux true pat5c2 t with
  | some caps =>
    let t4 := pyStrip (collapseWs (pyStrip (capGet caps 0)))
    if t4.isEmpty then none
    else some ("type_to_chat".data, t4, some (pyStrip (capGet caps 1)))
  | none => none

/-- Rule 5d (line 291):
`отправ(ь|и)\s+в\s+(телегра(м|мма?)|telegram)\s+(?P<target>.+?)\s*$`. -/
def pat5d : List Atom :=
  [.lit "отправ".data, .cls ['ь', 'и'], .ws1, .lit "в".data, .ws1, .strAlt tgAlts, .ws1,
   .grpLazy 0, .ws0, .eos]

/-- Rule 5d (line 291): open the chat only, stripping a leading `в`. -/
def rule5d (t : Str) : Option ParseRes :=
  match searchAux true pat5d t with
  | some caps =>
    some ("open_chat_only".data, reSubAnchored false patLeadV (pyStrip (capGet caps 0)),
      none)
  | none => none

/-- Rule 5e (line 303): same pattern as rule 5c1 of line 198, stripping a
leading preposition `в`, `к` or `ко` off the target. -/
def rule5e (t : Str) : Option ParseRes :=
  match searchAux true pat5c1 t with
  | some caps =>
    some ("type_to_chat".data,
      reSubAnchored false patLeadPrep (pyStrip (capGet caps 0)),
      some (pyStrip (capGet caps 1)))
  | none => none

/-- Rule 5f (line 315): `отправ(ь|и)\s+в\s+(?P<target>.+?)\s+сообщение\s+(?P<msg>.+)\s*$`. -/
def pat5f : List Atom :=
  [.lit "отправ".data, .cls ['ь', 'и'], .ws1, .lit "в".data, .ws1, .grpLazy 0, .ws1,
   .lit "сообщение".data, .ws1, .grpGreedy 1, .ws0, .eos]

/-- Rule 5f (line 315): skipped (falls through) when the target is just the
name of the application. -/
def rule5f (t : Str) : Option ParseRes :=
  match searchAux true pat5f t with
  | some caps =>
    let tg := pyStrip (capGet caps 0)
    if lowerStr tg == "telegram".data || lowerStr tg == "телеграм".data ||
        lowerStr tg == "телеграмма".data then none
    else some ("type_to_chat".data, tg, some (pyStrip (capGet caps 1)))
  | none => none

/-- Rule 6 (line 327):
`отправ(ь|и)\s+из\s+буфер(а|а обмена|а обмена|а)\s+в\s+(?P<target>.+?)\s*$`. -/
def pat6 : List Atom :=
  [.lit "отправ".data, .cls ['ь', 'и'], .ws1, .lit "из".data, .ws1, .lit "буфер".data,
   .strAlt bufAlts, .ws1, .lit "в".data, .ws1, .grpLazy 0, .ws0, .eos]

/-- Rule 6 (line 327): paste from the clipboard into the chat. -/
def rule6 (t : Str) : Option ParseRes :=
  match searchAux true pat6 t with
  | some caps => some ("paste_to_chat".data, pyStrip (capGet caps 0), none)
  | none => none

/-- Rule 7 (line 336): as rule 6 with `чат` before the target. -/
def pat7 : List Atom :=
  [.lit "отправ".data, .cls ['ь', 'и'], .ws1, .lit "из".data, .ws1, .lit "буфер".data,
   .strAlt bufAlts, .ws1, .lit "в".data, .ws1, .lit "чат".data, .ws1, .grpLazy 0,
   .ws0, .eos]

/-- Rule 7 (line 336): paste from the clipboard into the chat. -/
def rule7 (t : Str) : Option ParseRes :=
  match searchAux true pat7 t with
  | some caps => some ("paste_to_chat".data, pyStrip (capGet caps 0), none)
  | none => none

/-- Rule 8 (line 345): `встав(ь|и)\s+в\s+(?P<target>.+?)\s*$`. -/
def pat8 : List Atom :=
  [.lit "встав".data, .cls ['ь', 'и'], .ws1, .lit "в".data, .ws1, .grpLazy 0, .ws0, .eos]

/-- Rule 8 (line 345): paste from the clipboard into the chat. -/
def rule8 (t : Str) : Option ParseRes :=
  match searchAux true pat8 t with
  | some caps => some ("paste_to_chat".data, pyStrip (capGet caps 0), none)
  | none => none

/-- Rule 9 (line 354): `встав(ь|и)\s+в\s+чат\s+(?P<target>.+?)\s*$`. -/
def pat9 : List Atom :=
  [.lit "встав".data, .cls ['ь', 'и'], .ws1, .lit "в".data, .ws1, .lit "чат".data, .ws1,
   .grpLazy 0, .ws0, .eos]

/-- Rule 9 (line 354): paste from the clipboard into the chat. -/
def rule9 (t : Str) : Option ParseRes :=
  match searchAux true pat9 t with
  | some caps => some ("paste_to_chat".data, pyStrip (capGet caps 0), none)
  | none => none

/-- The rule cascade of `parse_command` in source order.  The word-count
fallback `rule5c2wc` sits at position 12 (0-based); the structured rules
`rule5c3` to `rule9` come after it. -/
def agentRules : List (Str → Option ParseRes) :=
  [rule1, rule2, rule3, rule4, rule4a, rule5, rule5a, rule5b, rule5c, rule5c1, rule5c2,
   rule5c1b, rule5c2wc, rule5c3, rule5d, rule5e, rule5f, rule6, rule7, rule8, rule9]

/-- The function `parse_command` of `src/agent.py`: strip the input, then
return the result of the first matching rule. -/
def parse_command (text : Str) : Option ParseRes :=
  firstSome (agentRules.map (fun r => r (pyStrip text)))

end Agent

/-- The dataclass `ParsedCommand` of `src/parsers/base.py`.  Intents are the
strings of the source. -/
structure ParsedCommand where
  intent : Str
  target : Str
  message : Option Str := none
  driver : Str := "telegram".data
deriving DecidableEq

namespace TelegramParser

/-- Parser rule 1: same pattern as rule 1 of `agent.py`, intent
`send_message`. -/
def tpRule1 (t : Str) : Option ParsedCommand :=
  match searchAux true Agent.pat1 t with
  | some caps =>
    some ⟨"send_message".data, pyStrip (capGet caps 0), some (pyStrip (capGet caps 1)),
      "telegram".data⟩
  | none => none

/-- Parser rule 2: `напиши\s+в\s+(?P<target>.+?)\s*:\s*(?P<msg>.+)\s*$`. -/
def tpRule2 (t : Str) : Option ParsedCommand :=
  match searchAux true Agent.pat2 t with
  | some caps =>
    some ⟨"send_message".data, pyStrip (capGet caps 0), some (pyStrip (capGet caps 1)),
      "telegram".data⟩
  | none => none

/-- Parser rule 3: `напиши\s+в\s+чат\s+(?P<target>.+?)\s*:\s*(?P<msg>.+)\s*$`. -/
def tpRule3 (t : Str) : Option ParsedCommand :=
  match searchAux true Agent.pat3 t with
  | some caps =>
    some ⟨"send_message".data, pyStrip (capGet caps 0), some (pyStrip (capGet caps 1)),
      "telegram".data⟩
  | none => none

/-- Parser rule 4: `напиши\s+в\s+(?P<target>.+?)\s+что\s+(?P<msg>.+)\s*$`. -/
def tpRule4 (t : Str) : Option ParsedCommand :=
  match searchAux true Agent.pat4 t with
  | some caps =>
    some ⟨"send_message".data, pyStrip (capGet caps 0), some (pyStrip (capGet caps 1)),
      "telegram".data⟩
  | none => none

/-- Parser rule 5: `напиши\s+(?P<target>.+?)\s+сообщение\s+(?P<msg>.+)\s*$`,
with only a leading `в` stripped off the target. -/
def tpRule5 (t : Str) : Option ParsedCommand :=
  match searchAux true Agent.pat4a t with
  | some caps =>
    some ⟨"send_message".data, reSubAnchored false patLeadV (pyStrip (capGet caps 0)),
      some (pyStrip (capGet caps 1)), "telegram".data⟩
  | none => none

/-- The alternation `(а|а обмена)` of parser rule 6 (two alternatives only,
unlike `agent.py`). -/
def bufAltsTp : List Str := ["а".data, "а обмена".data]

/-- Parser rule 6: `отправ(ь|и)\s+из\s+буфер(а|а обмена)\s+в\s+(?P<target>.+?)\s*$`. -/
def tpPat6 : List Atom :=
  [.lit "отправ".data, .cls ['ь', 'и'], .ws1, .lit "из".data, .ws1, .lit "буфер".data,
   .strAlt bufAltsTp, .ws1, .lit "в".data, .ws1, .grpLazy 0, .ws0, .eos]

/-- The substitution pattern `^\s*чат\s+` of parser rule 6 (IGNORECASE). -/
def patLeadChat : List Atom := [.ws0, .lit "чат".data, .ws1]

/-- Parser rule 6: paste from the clipboard, stripping a leading `чат`. -/
def tpRule6 (t : Str) : Option ParsedCommand :=
  match searchAux true tpPat6 t with
  | some caps =>
    some ⟨"paste_to_chat".data, reSubAnchored true patLeadChat (pyStrip (capGet caps 0)),
      none, "telegram".data⟩
  | none => none

/-- Parser rule 7: `открой\s+(?:чат\s+)?(?P<target>.+?)\s*$`. -/
def tpPat7 : List Atom :=
  [.lit "открой".data, .ws1, .optWordWs "чат".data, .grpLazy 0, .ws0, .eos]

/-- Parser rule 7: open the chat only, unless the text contains
`и напиши` (in which case nothing is returned at all). -/
def tpRule7 (t : Str) : Option ParsedCommand :=
  match searchAux true tpPat7 t with
  | some caps =>
    if containsSub (lowerStr t) "и напиши".data then none
    else some ⟨"open_chat_only".data, pyStrip (capGet caps 0), none, "telegram".data⟩
  | none => none

/-- The method `TelegramCommandParser.parse` of
`src/parsers/telegram_parser.py`: reject blank input, then apply the rule
cascade.  (Rule 7 is last, so its `и напиши` guard falling through reaches
no further rule, exactly as in the source.) -/
def parse (text : Str) : Option ParsedCommand :=
  let t := pyStrip text
  if t.isEmpty then none
  else firstSome ([tpRule1, tpRule2, tpRule3, tpRule4, tpRule5, tpRule6, tpRule7].map
    (fun r => r t))

end TelegramParser

/-- A request sent to the automation daemon by `execute_command`.  The
`result_index` argument of `open_chat` is the optional field of the
payload: `none` means the field is absent. -/
inductive Payload where
  /-- `{"cmd": "open_chat", "query": ..., "auto_select": ..., ["result_index": ...]}`. -/
  | open_chat (query : Str) (auto_select : Bool) (result_index : Option Int)
  /-- `{"cmd": "paste", "draft": ...}`. -/
  | paste (draft : Bool)
  /-- `{"cmd": "send", "text": ..., "use_clipboard": ..., "draft": ...}`. -/
  | send (text : Str) (use_clipboard : Bool) (draft : Bool)
deriving DecidableEq

namespace Agent

/-- The function `execute_command` of `src/agent.py`, lines 450-541, with
the transport abstracted: `daemon p` is the truth value of `ok` in the
response to `hs_call(p)`, `tracked` is the successfully loaded whitelist,
and `disable_whitelist` the `DISABLE_WHITELIST` switch.  Returns the boolean
result together with the daemon requests issued, in order. -/
def execute_command (daemon : Payload → Bool) (tracked : List TrackedItem)
    (disable_whitelist : Bool) (user_text : Str) : Bool × List Payload :=
  match parse_command user_text with
  | none => (false, [])
  | some (intent, target, msg) =>
    let maps := build_alias_map tracked
    let resolved : Option (Str × Option Int) :=
      match resolve_chat target maps.1 with
      | none => if disable_whitelist then some (target, some 0) else none
      | some canonical => some (canonical, (dget maps.2 canonical).join)
    match resolved with
    | none => (false, [])
    | some (canonical, result_index) =>
      let p1 := Payload.open_chat canonical true result_index
      if daemon p1 then
        if intent == "open_chat_only".data then (true, [p1])
        else if intent == "paste_to_chat".data then
          let p2 := Payload.paste true
          (daemon p2, [p1, p2])
        else
          let msg_clean := clean_one_line (msg.getD [])
          if msg_clean.isEmpty then (false, [p1])
          else
            let p2 := Payload.send msg_clean true true
            (daemon p2, [p1, p2])
      else (false, [p1])

end Agent

/-- The `ActionContext` of `src/actions/base.py` as built by
`CommandExecutor.execute`: resolved target, message, and the
`extra_params` entries `auto_select` and `result_index`. -/
structure ActionContext where
  target : Str
  message : Option Str
  auto_select : Bool
  result_index : Option Int
deriving DecidableEq

/-- The method `CommandExecutor.execute` of `src/core/executor.py` with its
collaborators abstracted: `driver_ok` tells whether the driver lookup
succeeds, `actions` is the action registry for the driver (an action is
abstracted to the `ok` of its result), and the maps come from
`build_alias_map`.  Returns the boolean result together with the action
invocations performed, in order. -/
def CommandExecutor.execute (driver_ok : Bool)
    (actions : Str → Option (ActionContext → Bool)) (cmd : ParsedCommand)
    (alias_map : PyDict Str Str) (result_index_map : PyDict Str (Option Int))
    (disable_whitelist : Bool) : Bool × List ActionContext :=
  if driver_ok then
    let resolved : Option (Str × Option Int) :=
      match ChatResolver.resolve_chat cmd.target alias_map with
      | none => if disable_whitelist then some (cmd.target, some 0) else none
      | some canonical => some (canonical, (dget result_index_map canonical).join)
    match resolved with
    | none => (false, [])
    | some (canonical, result_index) =>
      match actions cmd.intent with
      | none => (false, [])
      | some act =>
        let ctx : ActionContext := ⟨canonical, cmd.message, true, result_index⟩
        (act ctx, [ctx])
  else (false, [])

/-- Outcome of the HTTP transport underneath `hs_call`: either
`session.post` raised, or a response arrived with a status code, a body
text, and the parsed JSON value when the body parses (`J` is the type of
parsed JSON values). -/
inductive TransportOutcome (J : Type) where
  /-- `session.post` raised an exception rendered as `msg`. -/
  | raised (msg : Str)
  /-- A response with its status code, its text, and its parsed body
  (`none` when `r.json()` raises). -/
  | response (status : Int) (text : Str) (body : Option J)

/-- Value returned by `hs_call`: either one of its three locally built
error dictionaries, or the parsed JSON body passed through. -/
inductive HsRes (J : Type) where
  /-- A dictionary `{"ok": False, "error": ..., ["raw": ...], "url": ...}`. -/
  | errDict (error : Str) (raw : Option Str)
  /-- The response of `r.json()` returned as-is. -/
  | parsed (j : J)

/-- The field `"ok"` of an `hs_call` result as read by the caller with
`resp.get("ok", False)`; `getOk` reads it off a parsed JSON body. -/
def HsRes.okField {J : Type} (getOk : J → Bool) : HsRes J → Bool
  | .errDict _ _ => false
  | .parsed j => getOk j

/-- The function `hs_call` of `src/agent.py`: a raised request, a non-200
status and a non-JSON body each produce an `ok: False` dictionary, the raw
body being truncated to 5000 characters in the latter two cases; a 200
response with a JSON body is returned as parsed. -/
def hs_call {J : Type} (o : TransportOutcome J) : HsRes J :=
  match o with
  | .raised e => .errDict ("Request failed: ".data ++ e) none
  | .response status text body =>
    if status != 200 then
      .errDict ("HTTP ".data ++ (toString status).data) (some (text.take 5000))
    else
      match body with
      | some j => .parsed j
      | none => .errDict "Non-JSON response".data (some (text.take 5000))

namespace Ocr

/-- Line filtering of `find_chat_in_screenshot` (lines 63-68): strip each
OCR line and keep the non-empty ones longer than one character. -/
def filterLines (raw : List Str) : List Str :=
  (raw.map pyStrip).filter (fun l => !l.isEmpty && l.length > 1)

/-- Strategy 1 (lines 76-80): index of the first line whose normal form
equals the normalized target. -/
def strategy1 (lines : List Str) (target_norm : Str) : Option Nat :=
  (lines.map normalize_text).findIdx? (fun ln => ln == target_norm)

/-- Strategy 2 (lines 82-88): index of the first line that contains the
target (or vice versa) with a length difference of at most two. -/
def strategy2 (lines : List Str) (target_norm : Str) : Option Nat :=
  (lines.map normalize_text).findIdx? (fun ln =>
    (containsSub ln target_norm || containsSub target_norm ln) &&
      ((ln.length : Int) - (target_norm.length : Int)).natAbs ≤ 2)

/-- The character-overlap score of strategy 3 (lines 94-100):
`|target_chars ∩ line_chars| / max(|target_chars|, 1)`, with spaces removed
before forming the character sets.  The float arithmetic of the source is
modelled exactly by rational arithmetic. -/
def overlapScore (target_norm line_norm : Str) : ℚ :=
  let target_chars := (target_norm.filter (fun c => c != ' ')).toFinset
  let line_chars := (line_norm.filter (fun c => c != ' ')).toFinset
  ((target_chars ∩ line_chars).card : ℚ) / (max target_chars.card 1 : ℚ)

/-- Strategy 3 (lines 90-105): best index by overlap score, kept only when
the score strictly exceeds both the running best and 0.7; `-1` when no line
qualifies. -/
def strategy3 (lines : List Str) (target_norm : Str) : Int :=
  ((lines.map normalize_text).enum.foldl (fun (best : Int × ℚ) p =>
    let score := overlapScore target_norm p.2
    if score > best.2 ∧ score > 7/10 then ((p.1 : Int), score) else best)
    (-1, 0)).1

/-- The pure matching core of `find_chat_in_screenshot`
(`src/ocr_find_chat.py`, lines 70-105), taking the already extracted and
filtered OCR lines: empty line list and the three strategies in order,
`-1` when nothing matches. -/
def find_chat_in_lines (lines : List Str) (target_name : Str) : Int :=
  if lines.isEmpty then -1
  else
    let target_norm := normalize_text target_name
    match strategy1 lines target_norm with
    | some i => (i : Int)
    | none =>
      match strategy2 lines target_norm with
      | some i => (i : Int)
      | none => strategy3 lines target_norm

end Ocr

/-!  Character-level facts about the normalizer. -/

/-- Valid code points below the surrogate range survive `Char.ofNat`. -/
theorem charOfNat_toNat {n : Nat} (h : n < 0xd800) : (Char.ofNat n).toNat = n := by
  simp [Char.ofNat, Nat.isValidChar, UInt32.isValidChar, h, Char.toNat, Char.ofNatAux,
    UInt32.toNat, UInt32.ofNat']

/-- `pyLower` on a character outside the three uppercase ranges is the
identity. -/
theorem pyLower_fixed_of (c : Char) (h1 : ¬(65 ≤ c.toNat ∧ c.toNat ≤ 90))
    (h2 : ¬(0x410 ≤ c.toNat ∧ c.toNat ≤ 0x42F)) (h3 : c.toNat ≠ 0x401) :
    pyLower c = c := by
  simp only [pyLower, if_neg h1, if_neg h2, if_neg h3]

/-- Lowercasing is idempotent character by character. -/
theorem pyLower_idem (c : Char) : pyLower (pyLower c) = pyLower c := by
  by_cases h1 : 65 ≤ c.toNat ∧ c.toNat ≤ 90
  · have e1 : pyLower c = Char.ofNat (c.toNat + 32) := by
      simp only [pyLower, if_pos h1]
    have ht : (Char.ofNat (c.toNat + 32)).toNat = c.toNat + 32 := charOfNat_toNat (by omega)
    rw [e1]
    exact pyLower_fixed_of _ (by rw [ht]; omega) (by rw [ht]; omega) (by rw [ht]; omega)
  · by_cases h2 : 0x410 ≤ c.toNat ∧ c.toNat ≤ 0x42F
    · have e1 : pyLower c = Char.ofNat (c.toNat + 32) := by
        simp only [pyLower, if_neg h1, if_pos h2]
      have ht : (Char.ofNat (c.toNat + 32)).toNat = c.toNat + 32 :=
        charOfNat_toNat (by omega)
      rw [e1]
      exact pyLower_fixed_of _ (by rw [ht]; omega) (by rw [ht]; omega) (by rw [ht]; omega)
    · by_cases h3 : c.toNat = 0x401
      · have e1 : pyLower c = Char.ofNat 0x451 := by
          simp only [pyLower, if_neg h1, if_neg h2, if_pos h3]
        have ht : (Char.ofNat 0x451).toNat = 0x451 := charOfNat_toNat (by omega)
        rw [e1]
        exact pyLower_fixed_of _ (by rw [ht]; omega) (by rw [ht]; omega) (by rw [ht]; omega)
      · rw [pyLower_fixed_of c h1 h2 h3, pyLower_fixed_of c h1 h2 h3]

/-- Lowercasing does not change whether a character is whitespace. -/
theorem pyIsSpace_pyLower (c : Char) : pyIsSpace (pyLower c) = pyIsSpace c := by
  by_cases h1 : 65 ≤ c.toNat ∧ c.toNat ≤ 90
  · have e1 : pyLower c = Char.ofNat (c.toNat + 32) := by simp only [pyLower, if_pos h1]
    have ht : (Char.ofNat (c.toNat + 32)).toNat = c.toNat + 32 := charOfNat_toNat (by omega)
    rw [e1, Bool.eq_iff_iff]
    simp only [pyIsSpace, ht, Bool.or_eq_true, Bool.and_eq_true, beq_iff_eq,
      decide_eq_true_eq]
    omega
  · by_cases h2 : 0x410 ≤ c.toNat ∧ c.toNat ≤ 0x42F
    · have e1 : pyLower c = Char.ofNat (c.toNat + 32) := by
        simp only [pyLower, if_neg h1, if_pos h2]
      have ht : (Char.ofNat (c.toNat + 32)).toNat = c.toNat + 32 :=
        charOfNat_toNat (by omega)
      rw [e1, Bool.eq_iff_iff]
      simp only [pyIsSpace, ht, Bool.or_eq_true, Bool.and_eq_true, beq_iff_eq,
        decide_eq_true_eq]
      omega
    · by_cases h3 : c.toNat = 0x401
      · have e1 : pyLower c = Char.ofNat 0x451 := by
          simp only [pyLower, if_neg h1, if_neg h2, if_pos h3]
        have ht : (Char.ofNat 0x451).toNat = 0x451 := charOfNat_toNat (by omega)
        rw [e1, Bool.eq_iff_iff]
        simp only [pyIsSpace, ht, h3, Bool.or_eq_true, Bool.and_eq_true, beq_iff_eq,
          decide_eq_true_eq]
        omega
      · rw [pyLower_fixed_of c h1 h2 h3]

/-- The folding of ё to е does not change whether a character is
whitespace. -/
theorem pyIsSpace_yo (c : Char) :
    pyIsSpace (if c == 'ё' then 'е' else c) = pyIsSpace c := by
  by_cases h : c == 'ё'
  · have hc : c = 'ё' := (beq_iff_eq).mp h
    subst hc
    decide
  · simp [h]

/-- The letter е is a fixed point of `pyLower`. -/
theorem pyLower_e : pyLower 'е' = 'е' := by decide

/-- The space character is a fixed point of `pyLower`. -/
theorem pyLower_space : pyLower ' ' = ' ' := by decide

/-!  List-level facts about stripping and whitespace collapsing. -/

/-- The head surviving `dropWhile` falsifies the predicate. -/
theorem dropWhile_head_false {p : Char → Bool} :
    ∀ {l : Str} {c : Char} {rest : Str}, l.dropWhile p = c :: rest → p c = false := by
  intro l
  induction l with
  | nil => intro c rest h; simp at h
  | cons a as ih =>
    intro c rest h
    by_cases ha : p a
    · rw [List.dropWhile_cons_of_pos ha] at h
      exact ih h
    · rw [List.dropWhile_cons_of_neg ha] at h
      cases h
      exact Bool.of_not_eq_true ha

/-- `dropWhile` keeps the last element when its result is non-empty. -/
theorem dropWhile_getLast? {p : Char → Bool} {l : Str}
    (h : l.dropWhile p ≠ []) : (l.dropWhile p).getLast? = l.getLast? := by
  obtain ⟨w, hw⟩ := List.dropWhile_suffix (l := l) p
  conv_rhs => rw [← hw]
  rw [List.getLast?_append_of_ne_nil w h]

/-- A list whose head is not whitespace is untouched by `dropWhile`. -/
theorem dropWhile_eq_self_of_head {l : Str} {c : Char}
    (hh : l.head? = some c) (hc : pyIsSpace c = false) :
    l.dropWhile pyIsSpace = l := by
  cases l with
  | nil => rfl
  | cons a as =>
    cases hh
    rw [List.dropWhile_cons_of_neg (by simp [hc])]

/-- The head of a stripped string is not whitespace. -/
theorem pyStrip_head {s : Str} {c : Char} (h : (pyStrip s).head? = some c) :
    pyIsSpace c = false := by
  unfold pyStrip at h
  rw [List.head?_reverse] at h
  set v := (s.dropWhile pyIsSpace).reverse.dropWhile pyIsSpace with hv
  have hne : v ≠ [] := by
    intro he
    rw [he] at h
    simp at h
  rw [hv, dropWhile_getLast? (hv ▸ hne), List.getLast?_reverse] at h
  cases hd : (s.dropWhile pyIsSpace) with
  | nil => rw [hd] at h; simp at h
  | cons a as =>
    rw [hd] at h
    simp at h
    rw [← h]
    exact dropWhile_head_false hd

/-- The last character of a stripped string is not whitespace. -/
theorem pyStrip_getLast {s : Str} {c : Char} (h : (pyStrip s).getLast? = some c) :
    pyIsSpace c = false := by
  unfold pyStrip at h
  rw [List.getLast?_reverse] at h
  cases hd : (s.dropWhile pyIsSpace).reverse.dropWhile pyIsSpace with
  | nil => rw [hd] at h; simp at h
  | cons a as =>
    rw [hd] at h
    simp at h
    rw [← h]
    exact dropWhile_head_false hd

/-- A string whose two ends are not whitespace is untouched by `pyStrip`. -/
theorem pyStrip_eq_self {t : Str}
    (hh : ∀ c, t.head? = some c → pyIsSpace c = false)
    (hl : ∀ c, t.getLast? = some c → pyIsSpace c = false) :
    pyStrip t = t := by
  cases ht : t with
  | nil => rfl
  | cons a as =>
    have h1 : t.dropWhile pyIsSpace = t := by
      apply dropWhile_eq_self_of_head (c := a) (by rw [ht]; rfl)
      exact hh a (by rw [ht]; rfl)
    cases hrl : t.getLast? with
    | none =>
      rw [ht] at hrl
      simp at hrl
    | some d =>
      have h2 : t.reverse.dropWhile pyIsSpace = t.reverse := by
        apply dropWhile_eq_self_of_head (c := d) (by rw [List.head?_reverse]; exact hrl)
        exact hl d hrl
      unfold pyStrip
      rw [← ht, h1, h2, List.reverse_reverse]

/-- Collapsing a non-empty string yields a non-empty string. -/
theorem collapseWs_ne_nil : ∀ {t : Str}, t ≠ [] → collapseWs t ≠ [] := by
  intro t
  induction t using collapseWs.induct with
  | case1 => intro h; exact absurd rfl h
  | case2 c h => intro _; simp [collapseWs, h]
  | case3 c h => intro _; simp [collapseWs, h]
  | case4 c d rest hc hd ih =>
    intro _
    unfold collapseWs
    rw [if_pos hc, if_pos hd]
    exact ih (by simp)
  | case5 c d rest hc hd =>
    intro _
    unfold collapseWs
    rw [if_pos hc, if_neg hd]
    simp
  | case6 c d rest hc ih =>
    intro _
    unfold collapseWs
    rw [if_neg hc]
    simp

/-- Collapsing keeps a non-whitespace head. -/
theorem collapseWs_head {c : Char} (rest : Str) (hc : pyIsSpace c = false) :
    (collapseWs (c :: rest)).head? = some c := by
  cases rest with
  | nil => simp [collapseWs, hc]
  | cons d r =>
    unfold collapseWs
    rw [if_neg (by simp [hc])]
    rfl

/-- Collapsing keeps a non-whitespace last character. -/
theorem collapseWs_getLast :
    ∀ {t : Str} {c : Char}, t.getLast? = some c → pyIsSpace c = false →
      (collapseWs t).getLast? = some c := by
  intro t
  induction t using collapseWs.induct with
  | case1 => intro c h _; simp at h
  | case2 e he =>
    intro c h hc
    simp at h
    cases h
    simp [he] at hc
  | case3 e he =>
    intro c h hc
    simp at h
    cases h
    simp [collapseWs, he]
  | case4 e d rest hc hd ih =>
    intro c h hcc
    unfold collapseWs
    rw [if_pos hc, if_pos hd]
    exact ih (by simpa using h) hcc
  | case5 e d rest he hd ih =>
    intro c h hcc
    unfold collapseWs
    rw [if_pos he, if_neg hd]
    cases rest with
    | nil =>
      simp at h
      cases h
      simp [collapseWs]
    | cons x xs =>
      have hr : (x :: xs).getLast? = some c := by simpa using h
      have hcol := ih hr hcc
      have hne : collapseWs (x :: xs) ≠ [] := collapseWs_ne_nil (by simp)
      cases hcw : collapseWs (x :: xs) with
      | nil => exact absurd hcw hne
      | cons y ys =>
        rw [hcw] at hcol
        rw [List.getLast?_cons_cons, List.getLast?_cons_cons]
        exact hcol
  | case6 e d rest he ih =>
    intro c h hcc
    unfold collapseWs
    rw [if_neg he]
    have hr : (d :: rest).getLast? = some c := by simpa using h
    have hcol := ih hr hcc
    have hne : collapseWs (d :: rest) ≠ [] := collapseWs_ne_nil (by simp)
    cases hcw : collapseWs (d :: rest) with
    | nil => exact absurd hcw hne
    | cons y ys =>
      rw [hcw] at hcol
      rw [List.getLast?_cons_cons]
      exact hcol

/-- Unfolding equation for `collapseWs`: two leading whitespace
characters. -/
theorem collapseWs_ww {e d : Char} {rest : Str} (he : pyIsSpace e = true)
    (hd : pyIsSpace d = true) : collapseWs (e :: d :: rest) = collapseWs (d :: rest) := by
  conv_lhs => rw [collapseWs]
  rw [if_pos he, if_pos hd]

/-- Unfolding equation for `collapseWs`: whitespace before a
non-whitespace character. -/
theorem collapseWs_wn {e d : Char} {rest : Str} (he : pyIsSpace e = true)
    (hd : ¬ pyIsSpace d = true) :
    collapseWs (e :: d :: rest) = ' ' :: d :: collapseWs rest := by
  conv_lhs => rw [collapseWs]
  rw [if_pos he, if_neg hd]

/-- Unfolding equation for `collapseWs`: a non-whitespace head. -/
theorem collapseWs_n {e d : Char} {rest : Str} (he : ¬ pyIsSpace e = true) :
    collapseWs (e :: d :: rest) = e :: collapseWs (d :: rest) := by
  conv_lhs => rw [collapseWs]
  rw [if_neg he]

/-- Every character of a collapsed string is a space or came from the
input. -/
theorem collapseWs_mem :
    ∀ {t : Str} {c : Char}, c ∈ collapseWs t → c = ' ' ∨ c ∈ t := by
  intro t
  induction t using collapseWs.induct with
  | case1 => intro c h; simp [collapseWs] at h
  | case2 e he =>
    intro c h
    simp [collapseWs, he] at h
    exact Or.inl h
  | case3 e he =>
    intro c h
    simp [collapseWs, he] at h
    simp [h]
  | case4 e d rest he hd ih =>
    intro c h
    rw [collapseWs_ww he hd] at h
    rcases ih h with h' | h'
    · exact Or.inl h'
    · simp at h' ⊢
      tauto
  | case5 e d rest he hd ih =>
    intro c h
    rw [collapseWs_wn he hd] at h
    simp at h ⊢
    rcases h with h | h | h
    · exact Or.inl h
    · tauto
    · rcases ih h with h' | h'
      · exact Or.inl h'
      · tauto
  | case6 e d rest he ih =>
    intro c h
    rw [collapseWs_n he] at h
    simp at h ⊢
    rcases h with h | h
    · tauto
    · rcases ih h with h' | h'
      · exact Or.inl h'
      · simp at h'
        tauto

/-- Collapsing is idempotent. -/
theorem collapseWs_idem : ∀ (t : Str), collapseWs (collapseWs t) = collapseWs t := by
  intro t
  induction t using collapseWs.induct with
  | case1 => rfl
  | case2 e he => simp [collapseWs, he]
  | case3 e he => simp [collapseWs, he]
  | case4 e d rest he hd ih =>
    rw [collapseWs_ww he hd]
    exact ih
  | case5 e d rest he hd ih =>
    rw [collapseWs_wn he hd]
    cases rest with
    | nil =>
      rw [show collapseWs ([] : Str) = [] from rfl, collapseWs_wn (by decide) hd]
      rfl
    | cons x xs =>
      have hne : collapseWs (x :: xs) ≠ [] := collapseWs_ne_nil (by simp)
      cases hcw : collapseWs (x :: xs) with
      | nil => exact absurd hcw hne
      | cons y ys =>
        rw [hcw] at ih
        rw [collapseWs_wn (by decide) hd, ih]
  | case6 e d rest he ih =>
    rw [collapseWs_n he]
    have hne : collapseWs (d :: rest) ≠ [] := collapseWs_ne_nil (by simp)
    cases hcw : collapseWs (d :: rest) with
    | nil => exact absurd hcw hne
    | cons y ys =>
      rw [hcw] at ih
      rw [collapseWs_n he, ih]

/-- A map whose function fixes every member is the identity. -/
theorem map_eq_self_of_fixed {f : Char → Char} :
    ∀ {l : Str}, (∀ c ∈ l, f c = c) → l.map f = l := by
  intro l
  induction l with
  | nil => intro _; rfl
  | cons a as ih =>
    intro h
    simp only [List.map_cons]
    rw [h a (by simp), ih (fun c hc => h c (by simp [hc]))]

/-- The ё-folding step never changes whether a character is whitespace,
stated for mapped strings. -/
theorem pyIsSpace_norm_char (c : Char) :
    pyIsSpace (if pyLower c == 'ё' then 'е' else pyLower c) = pyIsSpace c := by
  rw [pyIsSpace_yo, pyIsSpace_pyLower]

/-- Characters of a normalized string are fixed by lowercasing. -/
theorem norm_char_lower_fixed (c : Char) :
    pyLower (if pyLower c == 'ё' then 'е' else pyLower c) =
      (if pyLower c == 'ё' then 'е' else pyLower c) := by
  by_cases h : pyLower c == 'ё'
  · simp only [h, if_true]
    decide
  · simp only [h]
    simp only [Bool.false_eq_true, if_false]
    exact pyLower_idem c

/-- Characters of a normalized string are not ё. -/
theorem norm_char_not_yo (c : Char) :
    ((if pyLower c == 'ё' then 'е' else pyLower c) == 'ё') = false := by
  by_cases h : pyLower c == 'ё'
  · simp only [h, if_true]
    decide
  · simp only [h]
    simp only [Bool.false_eq_true, if_false]
    simpa using h

/-- The string under `collapseWs` inside `norm`. -/
theorem norm_eq_collapse (s : Str) :
    norm s = collapseWs ((pyStrip s).map
      (fun c => if pyLower c == 'ё' then 'е' else pyLower c)) := by
  show collapseWs (replaceYo (lowerStr (pyStrip s))) = _
  unfold replaceYo lowerStr
  rw [List.map_map]
  rfl

/-- The head of `norm s` is not whitespace. -/
theorem norm_head {s : Str} {c : Char} (h : (norm s).head? = some c) :
    pyIsSpace c = false := by
  rw [norm_eq_collapse] at h
  set f := fun c => if pyLower c == 'ё' then 'е' else pyLower c with hf
  cases hu : (pyStrip s).map f with
  | nil => rw [hu] at h; simp [collapseWs] at h
  | cons a as =>
    have ha : pyIsSpace a = false := by
      have : ((pyStrip s).map f).head? = some a := by rw [hu]; rfl
      rw [List.head?_map] at this
      cases hh : (pyStrip s).head? with
      | none => rw [hh] at this; simp at this
      | some d =>
        rw [hh] at this
        simp at this
        rw [← this, hf]
        rw [pyIsSpace_norm_char]
        exact pyStrip_head hh
    rw [hu, collapseWs_head as ha] at h
    cases h
    exact ha

/-- The last character of `norm s` is not whitespace. -/
theorem norm_getLast {s : Str} {c : Char} (h : (norm s).getLast? = some c) :
    pyIsSpace c = false := by
  rw [norm_eq_collapse] at h
  set f := fun c => if pyLower c == 'ё' then 'е' else pyLower c with hf
  cases hu : ((pyStrip s).map f).getLast? with
  | none =>
    have : (pyStrip s).map f = [] := by
      cases hx : (pyStrip s).map f with
      | nil => rfl
      | cons a as =>
        rw [hx] at hu
        simp [List.getLast?_cons] at hu
    rw [this] at h
    simp [collapseWs] at h
  | some d =>
    have hd : pyIsSpace d = false := by
      rw [List.getLast?_map] at hu
      cases hl : (pyStrip s).getLast? with
      | none => rw [hl] at hu; simp at hu
      | some e =>
        rw [hl] at hu
        simp at hu
        rw [← hu, hf, pyIsSpace_norm_char]
        exact pyStrip_getLast hl
    by_cases hdc : d = c
    · rw [← hdc]; exact hd
    · rw [collapseWs_getLast hu hd] at h
      cases h
      exact hd

/-- Stripping fixes a normalized string. -/
theorem pyStrip_norm (s : Str) : pyStrip (norm s) = norm s := by
  apply pyStrip_eq_self
  · intro c h; exact norm_head h
  · intro c h; exact norm_getLast h

/-- Lowercasing fixes a normalized string. -/
theorem lowerStr_norm (s : Str) : lowerStr (norm s) = norm s := by
  apply map_eq_self_of_fixed
  intro c hc
  rw [norm_eq_collapse] at hc
  rcases collapseWs_mem hc with h | h
  · rw [h]; exact pyLower_space
  · rcases List.mem_map.mp h with ⟨x, _, hx⟩
    rw [← hx]
    exact norm_char_lower_fixed x

/-- The ё-folding fixes a normalized string. -/
theorem replaceYo_norm (s : Str) : replaceYo (norm s) = norm s := by
  apply map_eq_self_of_fixed
  intro c hc
  rw [norm_eq_collapse] at hc
  rcases collapseWs_mem hc with h | h
  · rw [h]; rfl
  · rcases List.mem_map.mp h with ⟨x, _, hx⟩
    rw [← hx, norm_char_not_yo]
    simp [← hx, norm_char_not_yo x]

/-- Collapsing fixes a normalized string. -/
theorem collapseWs_norm (s : Str) : collapseWs (norm s) = norm s := by
  rw [norm_eq_collapse, collapseWs_idem]

/-- claim C8: the text normalizer is idempotent: for every string,
normalizing twice equals normalizing once, where `norm` trims, lowercases,
folds ё to е and collapses whitespace runs (the `norm` of `agent.py` and
`chat_resolver.py`, whose body is also that of `normalize_text` in
`ocr_find_chat.py`). -/
theorem norm_idempotent (s : Str) : norm (norm s) = norm s := by
  have step : norm (norm s)
      = collapseWs (replaceYo (lowerStr (pyStrip (norm s)))) := rfl
  rw [step, pyStrip_norm, lowerStr_norm, replaceYo_norm, collapseWs_norm]

/-- claim C9: for every daemon transport outcome, `hs_call` returns a
result whose `ok` field is false whenever the request raises, the HTTP
status is not 200, or the body is not JSON; in the non-200 and non-JSON
cases the raw body kept in the diagnostic dictionary is truncated to at
most 5000 characters (`hs_call` is a total function: it never raises). -/
theorem hs_call_failures {J : Type} (getOk : J → Bool) (o : TransportOutcome J)
    (h : (∃ e, o = .raised e) ∨
      (∃ st tx b, o = .response st tx b ∧ st ≠ 200) ∨
      (∃ st tx, o = .response st tx none)) :
    ∃ err raw, hs_call o = .errDict err raw ∧ (hs_call o).okField getOk = false ∧
      ∀ r, raw = some r → r.length ≤ 5000 := by
  cases o with
  | raised e =>
    refine ⟨"Request failed: ".data ++ e, none, rfl, rfl, ?_⟩
    intro r hr
    cases hr
  | response st tx b =>
    by_cases hst : st = 200
    · have hb : b = none := by
        rcases h with ⟨e, he⟩ | ⟨st', tx', b', he, hne⟩ | ⟨st', tx', he⟩
        · cases he
        · cases he; exact absurd hst hne
        · cases he; rfl
      subst hb
      subst hst
      refine ⟨"Non-JSON response".data, some (tx.take 5000), ?_, ?_, ?_⟩
      · simp [hs_call]
      · simp [hs_call, HsRes.okField]
      · intro r hr
        cases hr
        rw [List.length_take]
        omega
    · refine ⟨"HTTP ".data ++ (toString st).data, some (tx.take 5000), ?_, ?_, ?_⟩
      · simp [hs_call, bne, hst]
      · simp [hs_call, bne, hst, HsRes.okField]
      · intro r hr
        cases hr
        rw [List.length_take]
        omega

/-- Witness for claim C9 at a concrete broken transport outcome. -/
theorem hs_call_failures_witness :
    ∃ err raw,
      hs_call (.response 500 "boom".data none : TransportOutcome Unit) = .errDict err raw ∧
      (hs_call (.response 500 "boom".data none : TransportOutcome Unit)).okField
        (fun _ => true) = false ∧
      ∀ r, raw = some r → r.length ≤ 5000 :=
  hs_call_failures (fun _ => true) (.response 500 "boom".data none)
    (Or.inr (Or.inl ⟨500, "boom".data, none, rfl, by decide⟩))

/-- claim C1: when whitelist enforcement is on and the parsed target does
not resolve through the alias map, the dispatcher returns a failure result
and issues no daemon call (`execute_command` of `agent.py`) and no driver
action (`CommandExecutor.execute` of `core/executor.py`). -/
theorem whitelist_reject_no_daemon_call :
    (∀ (daemon : Payload → Bool) (tracked : List TrackedItem)
       (text intent target : Str) (msg : Option Str),
       Agent.parse_command text = some (intent, target, msg) →
       Agent.resolve_chat target (Agent.build_alias_map tracked).1 = none →
       Agent.execute_command daemon tracked false text = (false, [])) ∧
    (∀ (driver_ok : Bool) (actions : Str → Option (ActionContext → Bool))
       (cmd : ParsedCommand) (am : PyDict Str Str) (rim : PyDict Str (Option Int)),
       ChatResolver.resolve_chat cmd.target am = none →
       CommandExecutor.execute driver_ok actions cmd am rim false = (false, [])) := by
  constructor
  · intro daemon tracked text intent target msg hp hr
    simp only [Agent.execute_command, hp, hr]
    simp
  · intro driver_ok actions cmd am rim hr
    cases driver_ok <;> simp [CommandExecutor.execute, hr]

/-- Witness for claim C1: a parsed command whose target is not in the
(empty) whitelist is rejected without any daemon request. -/
theorem whitelist_reject_no_daemon_call_witness :
    Agent.execute_command (fun _ => true) [] false "напиши в избранное: тест".data
        = (false, []) ∧
    CommandExecutor.execute true (fun _ => none)
        ⟨"send_message".data, "избранное".data, some "тест".data, "telegram".data⟩
        [] [] false = (false, []) :=
  ⟨whitelist_reject_no_daemon_call.1 (fun _ => true) [] "напиши в избранное: тест".data
      "type_to_chat".data "избранное".data (some "тест".data) (by decide) (by decide),
   whitelist_reject_no_daemon_call.2 true (fun _ => none)
      ⟨"send_message".data, "избранное".data, some "тест".data, "telegram".data⟩
      [] [] (by decide)⟩

/-- A string of whitespace strips to the empty string. -/
theorem pyStrip_all_ws {s : Str} (h : ∀ c ∈ s, pyIsSpace c = true) :
    pyStrip s = [] := by
  have hd : s.dropWhile pyIsSpace = [] := by
    induction s with
    | nil => rfl
    | cons a as ih =>
      rw [List.dropWhile_cons_of_pos (h a (by simp))]
      exact ih (fun c hc => h c (by simp [hc]))
  unfold pyStrip
  rw [hd]
  rfl

/-- claim C10: for every input that is empty or consists only of
whitespace, both parsers return nothing: `parse_command` of `agent.py`
yields its null triple and `TelegramCommandParser.parse` yields `None`;
no command with any intent is produced. -/
theorem blank_input_no_command (s : Str) (h : ∀ c ∈ s, pyIsSpace c = true) :
    Agent.parse_command s = none ∧ TelegramParser.parse s = none := by
  have hs : pyStrip s = [] := pyStrip_all_ws h
  constructor
  · show firstSome (Agent.agentRules.map (fun r => r (pyStrip s))) = none
    rw [hs]
    decide
  · show (if (pyStrip s).isEmpty then none
      else firstSome ([TelegramParser.tpRule1, TelegramParser.tpRule2, TelegramParser.tpRule3,
        TelegramParser.tpRule4, TelegramParser.tpRule5, TelegramParser.tpRule6,
        TelegramParser.tpRule7].map (fun r => r (pyStrip s)))) = none
    rw [hs]
    rfl

/-- Witness for claim C10 at a concrete whitespace-only input. -/
theorem blank_input_no_command_witness :
    Agent.parse_command "  ".data = none ∧ TelegramParser.parse "  ".data = none :=
  blank_input_no_command "  ".data (by decide)

/-- A cascade that already answered in its front part ignores the rules
appended behind it. -/
theorem firstSome_append_some {α : Type} :
    ∀ (xs ys : List (Option α)) (r : α), firstSome xs = some r →
      firstSome (xs ++ ys) = some r := by
  intro xs
  induction xs with
  | nil => intro ys r h; cases h
  | cons x rest ih =>
    intro ys r h
    cases x with
    | some a =>
      cases h
      rfl
    | none => exact ih ys r h

/-- The concrete input refuting claim C4: it matches both the word-count
fallback and the structured paste rule 8, which is ordered after it. -/
def c4input : Str := "отправь сообщение вставь в чат".data

/-- Counterexample for claim C4: a text matched by structured rule 8 and by
the word-count fallback, on which the parser returns the fallback's result,
not the structured rule's. -/
theorem word_count_beats_structured :
    Agent.rule8 c4input = some ("paste_to_chat".data, "чат".data, none) ∧
    Agent.rule5c2wc c4input
      = some ("type_to_chat".data, "вставь в".data, some "чат".data) ∧
    Agent.parse_command c4input
      = some ("type_to_chat".data, "вставь в".data, some "чат".data) ∧
    Agent.parse_command c4input ≠ Agent.rule8 c4input := by
  refine ⟨by decide, by decide, by decide, by decide⟩

/-- claim C4, amended: the word-count fallback is ordered after the twelve
structured message rules that precede it in the cascade — whenever one of
them matches, its result is the parser's result — but the structured rules
from line 280 on (`rule5c3` to `rule9`) are ordered after the fallback, so
an input matching only those and the fallback yields the fallback's
result. -/
theorem structured_front_rules_win (text : Str) (r : ParseRes)
    (h : firstSome ((Agent.agentRules.take 12).map (fun f => f (pyStrip text)))
      = some r) :
    Agent.parse_command text = some r := by
  show firstSome (Agent.agentRules.map (fun f => f (pyStrip text))) = some r
  rw [show Agent.agentRules
      = Agent.agentRules.take 12 ++ Agent.agentRules.drop 12 from
      (List.take_append_drop 12 Agent.agentRules).symm]
  rw [List.map_append]
  exact firstSome_append_some _ _ r h

/-- Witness for the amended claim C4 at a concrete structured input. -/
theorem structured_front_rules_win_witness :
    Agent.parse_command "напиши в избранное: тест".data
      = some ("type_to_chat".data, "избранное".data, some "тест".data) :=
  structured_front_rules_win "напиши в избранное: тест".data
    ("type_to_chat".data, "избранное".data, some "тест".data) (by decide)

/-- Tokens produced by Python `split()` are non-empty and free of
whitespace. -/
theorem splitWsAux_tokens :
    ∀ (s acc : Str), (∀ c ∈ acc, pyIsSpace c = false) →
      ∀ w ∈ splitWsAux s acc, w ≠ [] ∧ ∀ c ∈ w, pyIsSpace c = false := by
  intro s
  induction s with
  | nil =>
    intro acc hacc w hw
    unfold splitWsAux at hw
    by_cases he : acc.isEmpty
    · rw [if_pos he] at hw
      simp at hw
    · rw [if_neg he] at hw
      simp at hw
      subst hw
      refine ⟨?_, ?_⟩
      · intro hrev
        exact he (by simpa using List.reverse_eq_nil_iff.mp hrev)
      · intro c hc
        exact hacc c (List.mem_reverse.mp hc)
  | cons a s ih =>
    intro acc hacc w hw
    unfold splitWsAux at hw
    by_cases hsp : pyIsSpace a
    · rw [if_pos hsp] at hw
      by_cases he : acc.isEmpty
      · rw [if_pos he] at hw
        exact ih [] (by simp) w hw
      · rw [if_neg he] at hw
        rcases List.mem_cons.mp hw with hw | hw
        · subst hw
          refine ⟨?_, ?_⟩
          · intro hrev
            exact he (by simpa using List.reverse_eq_nil_iff.mp hrev)
          · intro c hc
            exact hacc c (List.mem_reverse.mp hc)
        · exact ih [] (by simp) w hw
    · rw [if_neg hsp] at hw
      refine ih (a :: acc) ?_ w hw
      intro c hc
      rcases List.mem_cons.mp hc with hc | hc
      · subst hc
        simpa using hsp
      · exact hacc c hc

/-- Joining non-empty words yields a non-empty string. -/
theorem joinSpace_ne_nil :
    ∀ {ws : List Str}, ws ≠ [] → (∀ w ∈ ws, w ≠ []) → joinSpace ws ≠ [] := by
  intro ws
  match ws with
  | [] => intro h _; exact absurd rfl h
  | [w] =>
    intro _ hw
    simpa [joinSpace] using hw w (by simp)
  | w :: x :: rest =>
    intro _ hw
    show w ++ ' ' :: joinSpace (x :: rest) ≠ []
    simp

/-- The head of a join of good tokens is a character of some token. -/
theorem joinSpace_head :
    ∀ {ws : List Str}, ws ≠ [] → (∀ w ∈ ws, w ≠ []) →
      ∃ c, (joinSpace ws).head? = some c ∧ ∃ w ∈ ws, c ∈ w := by
  intro ws
  match ws with
  | [] => intro h _; exact absurd rfl h
  | [w] =>
    intro _ hw
    cases hcw : w with
    | nil => exact absurd hcw (hw w (by simp))
    | cons c cs =>
      subst hcw
      exact ⟨c, by simp [joinSpace], c :: cs, by simp, by simp⟩
  | w :: x :: rest =>
    intro _ hw
    cases hcw : w with
    | nil => exact absurd hcw (hw w (by simp))
    | cons c cs =>
      subst hcw
      exact ⟨c, rfl, c :: cs, by simp, by simp⟩

/-- The last character of a join of good tokens is a character of some
token. -/
theorem joinSpace_getLast :
    ∀ (ws : List Str), ws ≠ [] → (∀ w ∈ ws, w ≠ []) →
      ∃ c, (joinSpace ws).getLast? = some c ∧ ∃ w ∈ ws, c ∈ w := by
  intro ws
  induction ws with
  | nil => intro h _; exact absurd rfl h
  | cons w rest ih =>
    intro _ hw
    cases rest with
    | nil =>
      cases hcw : w with
      | nil => exact absurd hcw (hw w (by simp))
      | cons c cs =>
        subst hcw
        rcases hgl : (c :: cs).getLast? with _ | d
        · simp [List.getLast?_cons] at hgl
        · exact ⟨d, by simpa [joinSpace] using hgl, c :: cs, by simp,
            List.mem_of_mem_getLast? hgl⟩
    | cons x xs =>
      rcases ih (by simp) (fun u hu => hw u (by simp [hu])) with ⟨c, hc, u, hu, hcu⟩
      have hne : joinSpace (x :: xs) ≠ [] :=
        joinSpace_ne_nil (by simp) (fun u hu => hw u (by simp [hu]))
      refine ⟨c, ?_, u, by simp [hu], hcu⟩
      show (w ++ ' ' :: joinSpace (x :: xs)).getLast? = some c
      rw [List.getLast?_append_of_ne_nil w (by simp)]
      rw [show (' ' :: joinSpace (x :: xs)) = [' '] ++ joinSpace (x :: xs) from rfl]
      rw [List.getLast?_append_of_ne_nil [' '] hne]
      exact hc

/-- Stripping a join of whitespace-free non-empty tokens changes nothing,
and the result is non-empty. -/
theorem pyStrip_joinSpace {ws : List Str} (hne : ws ≠ [])
    (hw : ∀ w ∈ ws, w ≠ [] ∧ ∀ c ∈ w, pyIsSpace c = false) :
    pyStrip (joinSpace ws) = joinSpace ws ∧ joinSpace ws ≠ [] := by
  have hnn : ∀ w ∈ ws, w ≠ [] := fun w h => (hw w h).1
  rcases joinSpace_head hne hnn with ⟨c, hc, u, hu, hcu⟩
  rcases joinSpace_getLast ws hne hnn with ⟨d, hd, v, hv, hdv⟩
  refine ⟨pyStrip_eq_self ?_ ?_, joinSpace_ne_nil hne hnn⟩
  · intro e he
    rw [hc] at he
    cases he
    exact (hw u hu).2 _ hcu
  · intro e he
    rw [hd] at he
    cases he
    exact (hw v hv).2 _ hdv

/-- The concrete input refuting claim C3: the quoted-message rule matches
with a message that is empty after trimming, and the parsers return it
instead of falling through. -/
def c3input : Str := "открой чат X и напиши « »".data

/-- Counterexample for claim C3: both parsers return a message-typing
command whose message is empty after trimming. -/
theorem empty_message_is_returned :
    TelegramParser.parse c3input
      = some ⟨"send_message".data, "X".data, some [], "telegram".data⟩ ∧
    Agent.parse_command c3input = some ("open_and_type".data, "X".data, some []) := by
  refine ⟨by decide, by decide⟩

/-- claim C3, amended: the empty-capture fall-through holds for the
word-count fallback rule of `parse_command` (the rule with an explicit
guard): it never returns a command with an empty target or an empty
trimmed message — when its message would be empty the rule does not match
and the cascade continues.  The quoted-message rule 1, however, can return
an empty trimmed message (see the counterexample). -/
theorem wordcount_never_empty_message (t intent tg : Str) (m : Option Str)
    (h : Agent.rule5c2wc t = some (intent, tg, m)) :
    tg ≠ [] ∧ ∃ mm, m = some mm ∧ mm ≠ [] := by
  unfold Agent.rule5c2wc at h
  cases hs : searchAux true Agent.patWc t with
  | none => rw [hs] at h; cases h
  | some caps =>
    rw [hs] at h
    simp only [] at h
    set words := pySplitWs (pyStrip (capGet caps 2)) with hwords
    have htok : ∀ w ∈ words, w ≠ [] ∧ ∀ c ∈ w, pyIsSpace c = false := by
      intro w hw
      rw [hwords] at hw
      exact splitWsAux_tokens (pyStrip (capGet caps 2)) [] (by simp) w hw
    set wt :=
      (if words.length ≥ 3 then (joinSpace (words.take 2), joinSpace (words.drop 2))
       else if words.length ≥ 2 then (words.headD [], joinSpace (words.drop 1))
       else (words.headD [], ([] : Str))) with hwt
    set t4 := pyStrip (collapseWs (reSubAnchored true patLeadTg
      (reSubEmpty true patTrailTgOpt (reSubAnchored false patLeadV wt.1)))) with ht4
    by_cases hguard : (t4.isEmpty || wt.2.isEmpty) = true
    · rw [if_pos hguard] at h
      cases h
    · rw [if_neg hguard] at h
      simp only [Bool.or_eq_true, not_or] at hguard
      obtain ⟨hg1, hg2⟩ := hguard
      simp only [Option.some.injEq, Prod.mk.injEq] at h
      obtain ⟨h1, h2, h3⟩ := h
      refine ⟨?_, pyStrip wt.2, h3.symm, ?_⟩
      · rw [← h2]
        intro hcon
        exact hg1 (by rw [hcon]; rfl)
      · have hsub : ∃ sub : List Str, wt.2 = joinSpace sub ∧ sub ≠ [] ∧
            ∀ w ∈ sub, w ≠ [] ∧ ∀ c ∈ w, pyIsSpace c = false := by
          rw [hwt]
          by_cases h3w : words.length ≥ 3
          · refine ⟨words.drop 2, by simp [h3w], ?_, ?_⟩
            · intro hdp
              have : joinSpace (words.drop 2) = [] := by rw [hdp]; rfl
              exact hg2 (by simp only [hwt, if_pos h3w]; simp [this])
            · intro w hw
              exact htok w (List.mem_of_mem_drop hw)
          · by_cases h2w : words.length ≥ 2
            · refine ⟨words.drop 1, by simp [h3w, h2w], ?_, ?_⟩
              · intro hdp
                have htl : joinSpace words.tail = [] := by
                  rw [← List.drop_one, hdp]
                  rfl
                exact hg2 (by simp only [hwt, if_neg h3w, if_pos h2w]; simp [htl])
              · intro w hw
                exact htok w (List.mem_of_mem_drop hw)
            · exfalso
              exact hg2 (by simp only [hwt, if_neg h3w, if_neg h2w]; simp)
        rcases hsub with ⟨sub, hsubeq, hsubne, hsubtok⟩
        rw [hsubeq]
        rw [(pyStrip_joinSpace hsubne hsubtok).1]
        exact (pyStrip_joinSpace hsubne hsubtok).2

/-- Witness for the amended claim C3 at a concrete fallback input. -/
theorem wordcount_never_empty_message_witness :
    "маме".data ≠ ([] : Str) ∧
      ∃ mm, (some "привет".data : Option Str) = some mm ∧ mm ≠ [] :=
  wordcount_never_empty_message "отправь сообщение маме привет".data
    "type_to_chat".data "маме".data (some "привет".data) (by decide)

/-- The concrete input of claim C5. -/
def c5input : Str := "отправь из буфера в избранное".data

/-- claim C5: parsing `отправь из буфера в избранное` yields the paste
intent with target `избранное` and no message; executing it issues exactly
the request `open_chat` followed by `paste` with `draft = true`, the
`paste` request being sent only when `open_chat` succeeded. -/
theorem paste_flow :
    Agent.parse_command c5input
      = some ("paste_to_chat".data, "избранное".data, none) ∧
    ∀ (daemon : Payload → Bool) (tracked : List TrackedItem) (canonical : Str),
      Agent.resolve_chat "избранное".data (Agent.build_alias_map tracked).1
          = some canonical →
      (daemon (Payload.open_chat canonical true
          ((dget (Agent.build_alias_map tracked).2 canonical).join)) = true →
        Agent.execute_command daemon tracked false c5input
          = (daemon (Payload.paste true),
             [Payload.open_chat canonical true
                ((dget (Agent.build_alias_map tracked).2 canonical).join),
              Payload.paste true])) ∧
      (daemon (Payload.open_chat canonical true
          ((dget (Agent.build_alias_map tracked).2 canonical).join)) = false →
        Agent.execute_command daemon tracked false c5input
          = (false, [Payload.open_chat canonical true
              ((dget (Agent.build_alias_map tracked).2 canonical).join)])) := by
  have hp : Agent.parse_command c5input
      = some ("paste_to_chat".data, "избранное".data, none) := by decide
  refine ⟨hp, ?_⟩
  intro daemon tracked canonical hres
  have h1 : ("paste_to_chat".data == "open_chat_only".data) = false := by decide
  have h2 : ("paste_to_chat".data == "paste_to_chat".data) = true := by decide
  constructor
  · intro hd
    simp only [Agent.execute_command, hp, hres, hd, h1, h2]
    simp
  · intro hd
    simp only [Agent.execute_command, hp, hres, hd]
    simp

/-- Witness for claim C5 with a concrete whitelist and daemon. -/
theorem paste_flow_witness :
    Agent.execute_command (fun _ => true) [⟨"избранное".data, [], none⟩] false c5input
      = (true, [Payload.open_chat "избранное".data true none, Payload.paste true]) :=
  (paste_flow.2 (fun _ => true) [⟨"избранное".data, [], none⟩] "избранное".data
    (by decide)).1 rfl

/-!  Facts about the alias dictionary. -/

/-- Lookup skips a front segment containing no binding of the key. -/
theorem dget_append_none {l m : PyDict Str Str} {k : Str}
    (h : ∀ p ∈ l, p.1 ≠ k) : dget (l ++ m) k = dget m k := by
  induction l with
  | nil => rfl
  | cons p l ih =>
    have hp : (p.1 == k) = false := by
      have := h p (by simp)
      simpa using this
    unfold dget
    rw [List.cons_append, List.find?_cons_of_neg _ (by simp [hp])]
    exact ih (fun q hq => h q (by simp [hq]))

/-- Lookup in a segment whose bindings all carry the value `c` and which
ends in an explicit binding of `k` to `c` yields `c`. -/
theorem dget_all_values {l : PyDict Str Str} {m : PyDict Str Str} {k c : Str}
    (h : ∀ p ∈ l, p.2 = c) : dget (l ++ (k, c) :: m) k = some c := by
  induction l with
  | nil =>
    unfold dget
    rw [List.nil_append, List.find?_cons_of_pos _ (by simp)]
  | cons p l ih =>
    by_cases hk : (p.1 == k) = true
    · unfold dget
      rw [List.cons_append, List.find?_cons_of_pos _ (by simp [hk])]
      show some p.2 = some c
      rw [h p (by simp)]
    · unfold dget
      rw [List.cons_append, List.find?_cons_of_neg _ (by simp [hk])]
      exact ih (fun q hq => h q (by simp [hq]))

/-- The alias insertions of one entry, written as an explicit list
segment. -/
theorem ChatResolver.aliases_foldl_eq (c : Str) :
    ∀ (as : List Str) (m : PyDict Str Str),
      as.foldl (fun m a => dset m (norm a) c) m
        = (as.reverse.map (fun a => (norm a, c))) ++ m := by
  intro as
  induction as with
  | nil => intro m; rfl
  | cons a as ih =>
    intro m
    rw [List.foldl_cons]
    show as.foldl (fun m a => dset m (norm a) c) ((norm a, c) :: m)
      = ((a :: as).reverse.map (fun a => (norm a, c))) ++ m
    rw [ih ((norm a, c) :: m), List.reverse_cons, List.map_append]
    simp

/-- The alias-map component of one build step, as a segment prepended to
the previous map. -/
theorem ChatResolver.buildStep_fst {maps : PyDict Str Str × PyDict Str (Option Int)}
    {item : TrackedItem} (h : ¬ item.canonical.isEmpty = true) :
    (ChatResolver.buildStep maps item).1
      = (item.aliases.reverse.map (fun a => (norm a, item.canonical)))
        ++ ((norm item.canonical, item.canonical) :: maps.1) := by
  unfold ChatResolver.buildStep
  rw [if_neg h]
  exact ChatResolver.aliases_foldl_eq item.canonical item.aliases _

/-- Entries contributing no binding of `k` leave the lookup of `k`
unchanged. -/
theorem ChatResolver.fold_no_key {k : Str} :
    ∀ (post : List TrackedItem) (maps : PyDict Str Str × PyDict Str (Option Int)),
      (∀ e' ∈ post, ¬ e'.canonical.isEmpty = true →
        norm e'.canonical ≠ k ∧ ∀ a ∈ e'.aliases, norm a ≠ k) →
      dget (post.foldl ChatResolver.buildStep maps).1 k = dget maps.1 k := by
  intro post
  induction post with
  | nil => intro maps _; rfl
  | cons e' post ih =>
    intro maps hpost
    rw [List.foldl_cons]
    rw [ih (ChatResolver.buildStep maps e') (fun x hx hc => hpost x (by simp [hx]) hc)]
    by_cases he : e'.canonical.isEmpty = true
    · unfold ChatResolver.buildStep
      rw [if_pos he]
    · obtain ⟨hc, ha⟩ := hpost e' (by simp) he
      rw [ChatResolver.buildStep_fst he]
      rw [show ((norm e'.canonical, e'.canonical) :: maps.1)
          = [(norm e'.canonical, e'.canonical)] ++ maps.1 from rfl]
      rw [← List.append_assoc]
      apply dget_append_none
      intro p hp
      rcases List.mem_append.mp hp with hp | hp
      · rcases List.mem_map.mp hp with ⟨a, haa, rfl⟩
        exact ha a (List.mem_reverse.mp haa)
      · simp at hp
        rw [hp]
        exact hc

/-- One build step always registers the entry's own canonical under its
normalized form. -/
theorem ChatResolver.buildStep_self {maps : PyDict Str Str × PyDict Str (Option Int)}
    {item : TrackedItem} (h : ¬ item.canonical.isEmpty = true) :
    dget (ChatResolver.buildStep maps item).1 (norm item.canonical)
      = some item.canonical := by
  rw [ChatResolver.buildStep_fst h]
  apply dget_all_values
  intro p hp
  rcases List.mem_map.mp hp with ⟨a, _, rfl⟩
  rfl

/-- The concrete whitelist refuting claim C2: the second entry's alias
collides with the first entry's canonical. -/
def collidingTracked : List TrackedItem :=
  [⟨"а".data, [], none⟩, ⟨"б".data, ["а".data], none⟩]

/-- Counterexample for claim C2: with a later entry whose alias normalizes
to the first entry's canonical key, resolving that canonical returns the
later canonical, not itself. -/
theorem self_alias_broken_by_collision :
    ChatResolver.resolve_chat "а".data
        (ChatResolver.build_alias_map collidingTracked).1 = some "б".data ∧
    ("б".data : Str) ≠ "а".data := by
  refine ⟨by decide, by decide⟩

/-- claim C2, amended: the self-alias invariant holds for an entry with a
non-empty canonical provided no later entry (with a non-empty canonical)
has a canonical or an alias normalizing to the same key — in particular it
holds whenever normalized keys are unique across the whitelist, the
last-loaded entry winning on collision. -/
theorem self_alias_without_later_collision (pre post : List TrackedItem)
    (e : TrackedItem) (hne : ¬ e.canonical.isEmpty = true)
    (hpost : ∀ e' ∈ post, ¬ e'.canonical.isEmpty = true →
      norm e'.canonical ≠ norm e.canonical ∧
        ∀ a ∈ e'.aliases, norm a ≠ norm e.canonical) :
    ChatResolver.resolve_chat e.canonical
      (ChatResolver.build_alias_map (pre ++ e :: post)).1 = some e.canonical := by
  show dget (ChatResolver.build_alias_map (pre ++ e :: post)).1 (norm e.canonical)
    = some e.canonical
  unfold ChatResolver.build_alias_map
  rw [List.foldl_append, List.foldl_cons]
  rw [ChatResolver.fold_no_key post _ hpost]
  exact ChatResolver.buildStep_self hne

/-- Witness for the amended claim C2 on a three-entry whitelist. -/
theorem self_alias_without_later_collision_witness :
    ChatResolver.resolve_chat "Максим Ершов".data
      (ChatResolver.build_alias_map
        ([⟨"чат".data, [], none⟩] ++ ⟨"Максим Ершов".data, ["Макс".data], none⟩ ::
          [⟨"семья".data, ["дом".data], none⟩])).1 = some "Максим Ершов".data :=
  self_alias_without_later_collision [⟨"чат".data, [], none⟩]
    [⟨"семья".data, ["дом".data], none⟩] ⟨"Максим Ершов".data, ["Макс".data], none⟩
    (by decide) (by decide)

/-- Lookup hits a matching head binding. -/
theorem dget_cons_pos {K V : Type} [BEq K] {k k' : K} {v : V} {m : PyDict K V}
    (h : (k' == k) = true) : dget ((k', v) :: m) k = some v := by
  unfold dget
  rw [List.find?_cons_of_pos _ (by simpa using h)]

/-- Lookup skips a non-matching head binding. -/
theorem dget_cons_neg {K V : Type} [BEq K] {k k' : K} {v : V} {m : PyDict K V}
    (h : (k' == k) = false) : dget ((k', v) :: m) k = dget m k := by
  unfold dget
  rw [List.find?_cons_of_neg _ (by simpa using h)]

/-- Provenance of a `result_index` binding: it can only come from an entry
that carries the `result_index` key explicitly. -/
theorem ChatResolver.rim_source :
    ∀ (tracked : List TrackedItem) (acc : PyDict Str Str × PyDict Str (Option Int))
      (c : Str) (v : Option Int),
      dget (tracked.foldl ChatResolver.buildStep acc).2 c = some v →
      dget acc.2 c = some v ∨
        ∃ item ∈ tracked, item.canonical = c ∧ ¬ item.canonical.isEmpty = true ∧
          item.result_index = some v := by
  intro tracked
  induction tracked with
  | nil => intro acc c v h; exact Or.inl h
  | cons item rest ih =>
    intro acc c v h
    rw [List.foldl_cons] at h
    rcases ih _ c v h with h' | ⟨it, hit, h1, h2, h3⟩
    · by_cases he : item.canonical.isEmpty = true
      · unfold ChatResolver.buildStep at h'
        rw [if_pos he] at h'
        exact Or.inl h'
      · unfold ChatResolver.buildStep at h'
        rw [if_neg he] at h'
        cases hri : item.result_index with
        | none =>
          rw [hri] at h'
          exact Or.inl h'
        | some w =>
          rw [hri] at h'
          have hred : dget ((item.canonical, w) :: acc.2) c = some v := h'
          cases hbeq : (item.canonical == c) with
          | true =>
            rw [dget_cons_pos hbeq] at hred
            right
            refine ⟨item, by simp, by simpa using hbeq, he, ?_⟩
            rw [hri]
            cases hred
            rfl
          | false =>
            rw [dget_cons_neg hbeq] at hred
            exact Or.inl hred
    · exact Or.inr ⟨it, by simp [hit], h1, h2, h3⟩

/-- The concrete whitelist of claim C6. -/
def maksimTracked : List TrackedItem :=
  [⟨"Максим Ершов".data, ["Максим".data], none⟩]

/-- claim C6: with the single entry `Максим Ершов` (alias `Максим`, no
`result_index`), the target `Максим` resolves to the canonical with no
fixed index, the `open_chat` payload carries no `result_index` field and
the action context carries none either; in general a fixed index is
recorded only for entries that configure `result_index` explicitly. -/
theorem auto_index_resolution :
    (ChatResolver.resolve_chat "Максим".data
        (ChatResolver.build_alias_map maksimTracked).1 = some "Максим Ершов".data ∧
     dget (ChatResolver.build_alias_map maksimTracked).2 "Максим Ершов".data = none ∧
     (∀ daemon : Payload → Bool,
        (Agent.execute_command daemon maksimTracked false
            "отправь в телеграм Максим".data).2
          = [Payload.open_chat "Максим Ершов".data true none]) ∧
     (∀ ok : Bool,
        (CommandExecutor.execute true (fun _ => some (fun _ => ok))
            ⟨"open_chat_only".data, "Максим".data, none, "telegram".data⟩
            (ChatResolver.build_alias_map maksimTracked).1
            (ChatResolver.build_alias_map maksimTracked).2 false).2
          = [⟨"Максим Ершов".data, none, true, none⟩])) ∧
    (∀ (tracked : List TrackedItem) (c : Str) (v : Option Int),
      dget (ChatResolver.build_alias_map tracked).2 c = some v →
      ∃ item ∈ tracked, item.canonical = c ∧ ¬ item.canonical.isEmpty = true ∧
        item.result_index = some v) := by
  refine ⟨⟨by decide, by decide, ?_, ?_⟩, ?_⟩
  · intro daemon
    have hp : Agent.parse_command "отправь в телеграм Максим".data
        = some ("open_chat_only".data, "Максим".data, none) := by decide
    have hres : Agent.resolve_chat "Максим".data
        (Agent.build_alias_map maksimTracked).1 = some "Максим Ершов".data := by decide
    have hrim : (dget (Agent.build_alias_map maksimTracked).2
        "Максим Ершов".data).join = none := by decide
    cases hd : daemon (Payload.open_chat "Максим Ершов".data true none) with
    | true =>
      simp only [Agent.execute_command, hp, hres, hrim, hd]
      simp
    | false =>
      simp only [Agent.execute_command, hp, hres, hrim, hd]
      simp
  · intro ok
    have hres : ChatResolver.resolve_chat "Максим".data
        (ChatResolver.build_alias_map maksimTracked).1
        = some "Максим Ершов".data := by decide
    have hrim : (dget (ChatResolver.build_alias_map maksimTracked).2
        "Максим Ершов".data).join = none := by decide
    simp only [CommandExecutor.execute, hres, hrim]
    simp
  · intro tracked c v h
    rcases ChatResolver.rim_source tracked ([], []) c v h with h' | h'
    · cases h'
    · exact h'

/-- Witness for claim C6: a configured index is traced back to its
entry. -/
theorem auto_index_resolution_witness :
    ∃ item ∈ [(⟨"семья".data, [], some (some 2)⟩ : TrackedItem)],
      item.canonical = "семья".data ∧ ¬ item.canonical.isEmpty = true ∧
        item.result_index = some (some 2) :=
  auto_index_resolution.2 [⟨"семья".data, [], some (some 2)⟩] "семья".data (some 2)
    (by decide)

/-- The on-screen lines of the claim C7 scenario. -/
def scenarioLines : List Str := ["Иван Петров".data, "Мария Смета".data]

/-- claim C7: for lines `Иван Петров`, `Мария Смета` and target `смета`,
tier 1 finds nothing; tier 2 does not select line 1 although containment
holds, because the length difference is 6 > 2; the tier-3 character-overlap
score of line 1 is 1, which exceeds 0.7, so the matcher returns index 1. -/
theorem fuzzy_tier3_selects :
    Ocr.strategy1 scenarioLines (normalize_text "смета".data) = none ∧
    (Ocr.strategy2 scenarioLines (normalize_text "смета".data) = none ∧
      containsSub (normalize_text "Мария Смета".data)
        (normalize_text "смета".data) = true ∧
      ¬ (((normalize_text "Мария Смета".data).length : Int)
          - ((normalize_text "смета".data).length : Int)).natAbs ≤ 2) ∧
    Ocr.overlapScore (normalize_text "смета".data)
      (normalize_text "Мария Смета".data) = 1 ∧
    (1 : ℚ) > 7/10 ∧
    Ocr.find_chat_in_lines scenarioLines "смета".data = 1 := by
  have hn2 : normalize_text "Мария Смета".data = "мария смета".data := by decide
  have hnt : normalize_text "смета".data = "смета".data := by decide
  have hc1 : (("смета".data.filter (fun c => c != ' ')).toFinset ∩
      ("иван петров".data.filter (fun c => c != ' ')).toFinset).card = 3 := by decide
  have hc2 : (("смета".data.filter (fun c => c != ' ')).toFinset ∩
      ("мария смета".data.filter (fun c => c != ' ')).toFinset).card = 5 := by decide
  have hct : ("смета".data.filter (fun c => c != ' ')).toFinset.card = 5 := by decide
  have hs0 : Ocr.overlapScore "смета".data "иван петров".data = 3/5 := by
    simp only [Ocr.overlapScore]
    rw [hc1, hct]
    norm_num
  have hs1 : Ocr.overlapScore "смета".data "мария смета".data = 1 := by
    simp only [Ocr.overlapScore]
    rw [hc2, hct]
    norm_num
  have hst3 : Ocr.strategy3 scenarioLines "смета".data = 1 := by
    unfold Ocr.strategy3
    rw [show scenarioLines.map normalize_text
        = ["иван петров".data, "мария смета".data] from by decide]
    rw [show (["иван петров".data, "мария смета".data] : List Str).enum
        = [(0, "иван петров".data), (1, "мария смета".data)] from by decide]
    rw [List.foldl_cons, List.foldl_cons, List.foldl_nil]
    norm_num [hs0, hs1]
  refine ⟨by decide, ⟨by decide, by decide, by decide⟩, ?_, by norm_num, ?_⟩
  · rw [hnt, hn2]
    exact hs1
  · simp only [Ocr.find_chat_in_lines]
    rw [if_neg (by decide)]
    rw [show Ocr.strategy1 scenarioLines (normalize_text "смета".data)
        = none from by decide]
    rw [show Ocr.strategy2 scenarioLines (normalize_text "смета".data)
        = none from by decide]
    rw [hnt]
    exact hst3
